import Mathlib

/-!
Shallow embedding of the Tari blockchain LMDB chain-storage backend
(`base_layer/core/src/chain_storage/lmdb_db/lmdb_db.rs`) and of the inbound
new-block reconciliation handler
(`base_layer/core/src/base_node/comms_interface/inbound_handlers.rs`).

Hashes and opaque payloads are modelled as natural numbers.  LMDB tables are
modelled as association lists; the low-level table primitives (which live in a
file outside the provided sources) are modelled from the specification's
"Table Operations" contract.
-/

set_option autoImplicit false

namespace Tari

/-- Block/output/kernel hashes are opaque fixed-width byte strings; modelled
as naturals. -/
abbrev Hash := Nat

/-- The error taxonomy of the chain storage layer (`ChainStorageError`),
restricted to the variants produced by the embedded operations. -/
inductive ChainStorageError where
  | valueNotFound (entity field value : String)
  | keyExists (table : String)
  | invalidOperation (msg : String)
  | dataInconsistencyDetected (function details : String)
  | dbResizeRequired
  | dbTransactionTooLarge (numOperations : Nat)
  deriving DecidableEq, Repr

/-- Embeds `BlockHeader`: the fields the storage layer reads.  The header's hash is
an opaque digest of its contents, modelled as the designated field
`hashVal`. -/
structure BlockHeader where
  height : Nat
  prevHash : Hash
  hashVal : Hash
  kernelMmrSize : Nat
  outputMmrSize : Nat
  deriving DecidableEq, Repr

/-- Embeds `BlockHeader::hash()`. -/
def BlockHeader.hash (h : BlockHeader) : Hash := h.hashVal

/-- Embeds `BlockHeaderAccumulatedData`: per-header accumulated data; the storage
code reads only its `hash` field, the rest is opaque. -/
structure BlockHeaderAccumulatedData where
  hash : Hash
  rest : Nat
  deriving DecidableEq, Repr

/-- A stored output row (`TransactionOutputRowData`): the full output payload
is present until pruning clears it to `none`; hash, witness hash, mined
height and mined timestamp survive pruning. -/
structure TransactionOutputRowData where
  output : Option Nat
  hash : Hash
  witnessHash : Hash
  minedHeight : Nat
  minedTimestamp : Nat
  deriving DecidableEq, Repr

/-- Composite key of the `utxos_db` table: header hash concatenated with the
big-endian MMR position (`OutputKey::try_from_parts`). -/
structure OutputKey where
  headerHash : Hash
  mmrPosition : Nat
  deriving DecidableEq, Repr

/-- Composite key of the `kernels_db` table: header hash, MMR position and
kernel hash. -/
structure KernelKey where
  headerHash : Hash
  mmrPosition : Nat
  kernelHash : Hash
  deriving DecidableEq, Repr

/-- A block as stored in the orphan pool and as produced by the block
builder: header plus coinbase data plus non-coinbase transactions (the
latter modelled as opaque naturals). -/
structure Block where
  header : BlockHeader
  coinbaseOutput : Nat
  coinbaseKernel : Nat
  transactions : List Nat
  deriving DecidableEq, Repr

/-- Embeds `Block::hash()`: the hash of the block's header. -/
def Block.hash (b : Block) : Hash := b.header.hash

/-!  ## Table primitives

Modelled from the spec: the low-level LMDB helpers (`lmdb_get`, `lmdb_insert`,
`lmdb_replace`, `lmdb_delete`, `lmdb_last`, `lmdb_first_after`,
`lmdb_fetch_matching_after`) live in `chain_storage/lmdb_db/lmdb.rs`, which is
not among the provided sources; their semantics follow the spec's §4.2 "Table
Operations" contract over a generic sorted key-value table, modelled here as an
association list with unique keys maintained by the operations themselves.
-/

/-- A named LMDB table: an association list from keys to values. -/
abbrev Table (K V : Type) := List (K × V)

/-- Modelled from the spec: `lmdb_get` — point lookup, `None` when absent. -/
def tget {K V : Type} [DecidableEq K] : Table K V → K → Option V
  | [], _ => none
  | (k, v) :: rest, key => if k = key then some v else tget rest key

/-- Modelled from the spec: `lmdb_exists`. -/
def texists {K V : Type} [DecidableEq K] (t : Table K V) (k : K) : Bool :=
  (tget t k).isSome

/-- Modelled from the spec: `lmdb_insert` — fails with a duplicate-key error
if the key already exists. -/
def tinsert {K V : Type} [DecidableEq K] (t : Table K V) (k : K) (v : V) (table : String) :
    Except ChainStorageError (Table K V) :=
  match tget t k with
  | some _ => .error (.keyExists table)
  | none => .ok ((k, v) :: t)

/-- Modelled from the spec: `lmdb_replace` — unconditional upsert. -/
def treplace {K V : Type} [DecidableEq K] (t : Table K V) (k : K) (v : V) : Table K V :=
  (k, v) :: t.filter (fun p => p.1 ≠ k)

/-- Modelled from the spec: `lmdb_delete` — fails with `ValueNotFound` when
the key is absent. -/
def tdelete {K V : Type} [DecidableEq K] (t : Table K V) (k : K) (table : String) :
    Except ChainStorageError (Table K V) :=
  match tget t k with
  | some _ => .ok (t.filter (fun p => p.1 ≠ k))
  | none => .error (.valueNotFound table "key" "")

/-- Modelled from the spec: `lmdb_last` — the entry with the greatest key
(the tables are sorted by key; headers are keyed by height). -/
def tlast {V : Type} : Table Nat V → Option (Nat × V)
  | [] => none
  | p :: rest =>
    match tlast rest with
    | none => some p
    | some q => if q.1 > p.1 then some q else some p

/-- Modelled from the spec: `lmdb_first_after` — the entry with the smallest
key greater than or equal to the given key (`MDB_SET_RANGE` cursor). -/
def tfirstAfter {V : Type} : Table Nat V → Nat → Option (Nat × V)
  | [], _ => none
  | p :: rest, k =>
    match tfirstAfter rest k with
    | none => if k ≤ p.1 then some p else none
    | some q => if k ≤ p.1 ∧ p.1 < q.1 then some p else some q

/-- Modelled from the spec: `lmdb_fetch_matching_after` over `utxos_db` —
all rows whose composite key starts with the given header hash. -/
def utxosMatchingHeader (t : Table OutputKey TransactionOutputRowData) (h : Hash) :
    List (OutputKey × TransactionOutputRowData) :=
  t.filter (fun p => p.1.headerHash = h)

/-- Modelled from the spec: `lmdb_fetch_matching_after` over `kernels_db` —
all rows whose composite key starts with the given header hash. -/
def kernelsMatchingHeader (t : Table KernelKey Nat) (h : Hash) : List (KernelKey × Nat) :=
  t.filter (fun p => p.1.headerHash = h)

/-- Modelled from the spec: `lmdb_delete_key_value` over the orphan
parent-map multimap — removes one specific (key, value) pair, failing with
`ValueNotFound` when the pair is absent. -/
def tdeleteKeyValue (t : List (Hash × Hash)) (k v : Hash) :
    Except ChainStorageError (List (Hash × Hash)) :=
  if (k, v) ∈ t then .ok (t.eraseP (fun p => p.1 = k ∧ p.2 = v))
  else .error (.valueNotFound "orphan_parent_map_index" "key" "")

/-!  ## The database state (`LMDBDatabase`)

The singleton metadata record is keyed by `MetadataKey` in the real store and
written with `lmdb_replace`; it is modelled as one `Option` field per key.
-/

/-- The state of the LMDB blockchain backend: the tables touched by the
embedded operations. -/
structure LMDBDatabase where
  metadataChainHeight : Option Nat := none
  metadataBestBlock : Option Hash := none
  metadataAccumulatedWork : Option Nat := none
  metadataBestBlockTimestamp : Option Nat := none
  metadataPruningHorizon : Option Nat := none
  metadataPrunedHeight : Option Nat := none
  metadataDeletedBitmap : Option (Finset Nat) := none
  headersDb : Table Nat BlockHeader := []
  headerAccumulatedDataDb : Table Nat BlockHeaderAccumulatedData := []
  blockAccumulatedDataDb : Table Nat Nat := []
  blockHashesDb : Table Hash Nat := []
  utxosDb : Table OutputKey TransactionOutputRowData := []
  kernelsDb : Table KernelKey Nat := []
  kernelMmrSizeIndex : Table Nat Nat := []
  outputMmrSizeIndex : Table Nat (Nat × Hash) := []
  orphansDb : Table Hash Block := []
  orphanHeaderAccumulatedDataDb : Table Hash Nat := []
  orphanChainTipsDb : Table Hash Hash := []
  orphanParentMapIndex : List (Hash × Hash) := []
  deriving DecidableEq

/-- The freshly created, empty database. -/
def emptyDb : LMDBDatabase := {}

/-- Embeds `fetch_last_header_in_txn`: `lmdb_last` on `headers_db`. -/
def fetchLastHeaderInTxn (db : LMDBDatabase) : Option BlockHeader :=
  (tlast db.headersDb).map (fun p => p.2)

/-- Embeds `fetch_best_block`: reads the best-block metadata entry, failing with
`ValueNotFound` when it has never been set. -/
def fetchBestBlock (db : LMDBDatabase) : Except ChainStorageError Hash :=
  match db.metadataBestBlock with
  | some b => .ok b
  | none => .error (.valueNotFound "ChainMetadata" "BestBlock" "")

/-- Embeds `fetch_deleted_bitmap`: reads the persisted deleted bitmap, defaulting to
the empty bitmap when absent. -/
def fetchDeletedBitmap (db : LMDBDatabase) : Finset Nat :=
  db.metadataDeletedBitmap.getD ∅

/-!  ## Error messages

The source formats rich messages; each distinct `InvalidOperation` message is
modelled by a dedicated function of the data it names.
-/

/-- "There is a different header stored at height ... already." -/
def differentHeaderAtHeightMsg (height : Nat) (newHash currentHash : Hash) : String :=
  s!"There is a different header stored at height {height} already. New header ({newHash}), current header: ({currentHash})"

/-- "The header at height ... already exists." -/
def headerAlreadyExistsMsg (height : Nat) (existingHash : Hash) : String :=
  s!"The header at height {height} already exists. Existing header hash: {existingHash}"

/-- "Attempted to insert a header out of order." -/
def headerOutOfOrderMsg (lastHeight newHeight : Nat) : String :=
  s!"Attempted to insert a header out of order. The last header height is {lastHeight} but attempted to insert a header with height {newHeight}"

/-- "Attempted to insert a block header ... that didn't form a chain." -/
def brokenChainMsg (height : Nat) (lastHash prevHash : Hash) : String :=
  s!"Attempted to insert a block header at height {height} that didn't form a chain. Previous block hash:{lastHash}, new block's previous hash:{prevHash}"

/-- "The first header inserted must have height 0." -/
def firstHeaderNotZeroMsg (height : Nat) : String :=
  s!"The first header inserted must have height 0. Height provided: {height}"

/-- "Attempted to delete header ... while block accumulated data still exists." -/
def accumDataStillExistsMsg (height : Nat) : String :=
  s!"Attempted to delete header at height {height} while block accumulated data still exists"

/-- "Attempted to delete a header ... that was not the last header." -/
def notLastHeaderMsg (height lastHeight : Nat) : String :=
  s!"Attempted to delete a header at height {height} that was not the last header (which is at height {lastHeight}). Headers must be deleted in reverse order."

/-- "Cannot delete header ... because there are kernels linked to it." -/
def kernelsLinkedMsg (height : Nat) (hash : Hash) : String :=
  s!"Cannot delete header {height} ({hash}) because there are kernels linked to it"

/-- "Cannot delete header ... because there are UTXOs linked to it." -/
def utxosLinkedMsg (height : Nat) (hash : Hash) : String :=
  s!"Cannot delete header at height {height} ({hash}) because there are UTXOs linked to it"

/-- "There was a change in best_block ..." — names both the expected and the
currently stored best-block hash. -/
def bestBlockChangedMsg (expected current : Hash) : String :=
  s!"There was a change in best_block, the best block is suppose to be: ({expected}), but it currently is: ({current})"

/-- "There is no Blockheader hash ... in db" — the source interpolates
`expected_prev_best_block` here. -/
def noBlockHeaderHashMsg (expectedPrevBestBlock : Hash) : String :=
  s!"There is no Blockheader hash ({expectedPrevBestBlock}) in db"

/-- "Attempt to prune output that has already been pruned." -/
def alreadyPrunedDetails (headerHash mmrPosition : Nat) : String :=
  s!"Attempt to prune output that has already been pruned for key {headerHash}-{mmrPosition}"

/-!  ## Storage operations (`LMDBDatabase` methods) -/

/-- The five `lmdb_insert` calls on the success path of
`LMDBDatabase::insert_header`. -/
def insertHeaderTables (db : LMDBDatabase) (header : BlockHeader)
    (accumData : BlockHeaderAccumulatedData) : Except ChainStorageError LMDBDatabase :=
  match tinsert db.headerAccumulatedDataDb header.height accumData
    "header_accumulated_data_db" with
  | .error e => .error e
  | .ok headerAccum =>
  match tinsert db.blockHashesDb header.hash header.height "block_hashes_db" with
  | .error e => .error e
  | .ok blockHashes =>
  match tinsert db.headersDb header.height header "headers_db" with
  | .error e => .error e
  | .ok headers =>
  match tinsert db.kernelMmrSizeIndex header.kernelMmrSize header.height
    "kernel_mmr_size_index" with
  | .error e => .error e
  | .ok kernelSizes =>
  match tinsert db.outputMmrSizeIndex header.outputMmrSize
    (header.height, header.hash) "output_mmr_size_index" with
  | .error e => .error e
  | .ok outputSizes =>
  .ok { db with
    headerAccumulatedDataDb := headerAccum
    blockHashesDb := blockHashes
    headersDb := headers
    kernelMmrSizeIndex := kernelSizes
    outputMmrSizeIndex := outputSizes }

/-- Embeds `LMDBDatabase::insert_header`: validates height uniqueness, contiguity
and previous-hash linkage, then writes the header row plus its four index
rows. -/
def insertHeader (db : LMDBDatabase) (header : BlockHeader)
    (accumData : BlockHeaderAccumulatedData) : Except ChainStorageError LMDBDatabase :=
  match tget db.headersDb header.height with
  | some currentHeaderAtHeight =>
    if currentHeaderAtHeight.hash ≠ accumData.hash then
      .error (.invalidOperation
        (differentHeaderAtHeightMsg header.height accumData.hash currentHeaderAtHeight.hash))
    else
      .error (.invalidOperation (headerAlreadyExistsMsg header.height currentHeaderAtHeight.hash))
  | none =>
    match fetchLastHeaderInTxn db with
    | some lastHeader =>
      if lastHeader.height ≠ header.height - 1 then
        .error (.invalidOperation (headerOutOfOrderMsg lastHeader.height header.height))
      else if lastHeader.hash ≠ header.prevHash then
        .error (.invalidOperation (brokenChainMsg header.height lastHeader.hash header.prevHash))
      else
        insertHeaderTables db header accumData
    | none =>
      if header.height ≠ 0 then
        .error (.invalidOperation (firstHeaderNotZeroMsg header.height))
      else
        insertHeaderTables db header accumData

/-- Embeds `LMDBDatabase::delete_header`: refuses while `BlockAccumulatedData`
exists at the height, when the height is not the last header's, or while
kernels/UTXOs still reference the header's hash; then removes the header
and its index rows. -/
def deleteHeader (db : LMDBDatabase) (height : Nat) : Except ChainStorageError LMDBDatabase :=
  if (tget db.blockAccumulatedDataDb height).isSome then
    .error (.invalidOperation (accumDataStillExistsMsg height))
  else
    match fetchLastHeaderInTxn db with
    | none => .error (.valueNotFound "BlockHeader" "height" "last_header")
    | some header =>
      if header.height ≠ height then
        .error (.invalidOperation (notLastHeaderMsg height header.height))
      else if kernelsMatchingHeader db.kernelsDb header.hash ≠ [] then
        .error (.invalidOperation (kernelsLinkedMsg header.height header.hash))
      else if utxosMatchingHeader db.utxosDb header.hash ≠ [] then
        .error (.invalidOperation (utxosLinkedMsg height header.hash))
      else
        match tdelete db.blockHashesDb header.hash "block_hashes_db" with
        | .error e => .error e
        | .ok blockHashes =>
        match tdelete db.headersDb height "headers_db" with
        | .error e => .error e
        | .ok headers =>
        match tdelete db.headerAccumulatedDataDb height "header_accumulated_data_db" with
        | .error e => .error e
        | .ok headerAccum =>
        match tdelete db.kernelMmrSizeIndex header.kernelMmrSize "kernel_mmr_size_index" with
        | .error e => .error e
        | .ok kernelSizes =>
        match tdelete db.outputMmrSizeIndex header.outputMmrSize "output_mmr_size_index" with
        | .error e => .error e
        | .ok outputSizes =>
        .ok { db with
          blockHashesDb := blockHashes
          headersDb := headers
          headerAccumulatedDataDb := headerAccum
          kernelMmrSizeIndex := kernelSizes
          outputMmrSizeIndex := outputSizes }

/-- Embeds `LMDBDatabase::prune_output`: clears the full output payload of the row
at `key`, failing when the row is absent or its payload was already
cleared. -/
def pruneOutput (db : LMDBDatabase) (key : OutputKey) :
    Except ChainStorageError LMDBDatabase :=
  match tget db.utxosDb key with
  | none => .error (.valueNotFound "TransactionOutput" "key" "")
  | some row =>
    match row.output with
    | none => .error (.dataInconsistencyDetected "prune_output" (alreadyPrunedDetails key.headerHash key.mmrPosition))
    | some _ => .ok { db with utxosDb := treplace db.utxosDb key { row with output := none } }

/-- Two to the power 32: MMR positions are `u32` in the source. -/
def u32Mod : Nat := 4294967296

/-- Embeds `LMDBDatabase::prune_outputs_at_positions`: for each position, resolves
the owning header through the output-MMR-size index (`lmdb_first_after` at
`pos + 1`, computed in `u32`), rebuilds the composite key and prunes the
row. -/
def pruneOutputsAtPositions (db : LMDBDatabase) (positions : List Nat) :
    Except ChainStorageError LMDBDatabase :=
  match positions with
  | [] => .ok db
  | pos :: rest =>
    match tfirstAfter db.outputMmrSizeIndex ((pos + 1) % u32Mod) with
    | none => .error (.valueNotFound "BlockHeader" "mmr_position" "")
    | some (_, (_height, hash)) =>
      match pruneOutput db (OutputKey.mk hash pos) with
      | .error e => .error e
      | .ok db' => pruneOutputsAtPositions db' rest

/-- The tip-retirement step of `delete_orphan`: when the deleted orphan was a
chain tip, drop its tip entry and promote its parent to a tip when the
parent is itself a stored orphan. -/
def deleteOrphanTipStep (db : LMDBDatabase) (hash parentHash : Hash) :
    Except ChainStorageError LMDBDatabase :=
  if texists db.orphanChainTipsDb hash then
    match tdelete db.orphanChainTipsDb hash "orphan_chain_tips_db" with
    | .error e => .error e
    | .ok tips =>
      if texists db.orphansDb parentHash then
        match tinsert tips parentHash parentHash "orphan_chain_tips_db" with
        | .error e => .error e
        | .ok tips' => .ok { db with orphanChainTipsDb := tips' }
      else
        .ok { db with orphanChainTipsDb := tips }
  else
    .ok db

/-- The accumulated-data removal step of `delete_orphan`. -/
def deleteOrphanAccumStep (db : LMDBDatabase) (hash : Hash) :
    Except ChainStorageError LMDBDatabase :=
  if texists db.orphanHeaderAccumulatedDataDb hash then
    match tdelete db.orphanHeaderAccumulatedDataDb hash "orphan_header_accumulated_data_db" with
    | .error e => .error e
    | .ok accum => .ok { db with orphanHeaderAccumulatedDataDb := accum }
  else
    .ok db

/-- Embeds `LMDBDatabase::delete_orphan`: idempotent at the top level (absent hash
is a no-op); otherwise removes the parent-map entry, retires the tip entry,
drops the orphan's accumulated data and finally the orphan row itself. -/
def deleteOrphan (db : LMDBDatabase) (hash : Hash) : Except ChainStorageError LMDBDatabase :=
  match tget db.orphansDb hash with
  | none => .ok db
  | some orphan =>
    match tdeleteKeyValue db.orphanParentMapIndex orphan.header.prevHash hash with
    | .error e => .error e
    | .ok parentMap =>
    match deleteOrphanTipStep { db with orphanParentMapIndex := parentMap } hash
      orphan.header.prevHash with
    | .error e => .error e
    | .ok db1 =>
    match deleteOrphanAccumStep db1 hash with
    | .error e => .error e
    | .ok db2 =>
    match tdelete db2.orphansDb hash "orphans_db" with
    | .error e => .error e
    | .ok orphans => .ok { db2 with orphansDb := orphans }

/-!  ## The deleted-bitmap model (`DeletedBitmapModel`)

The roaring bitmap is modelled as a `Finset Nat`; `run_optimize` only changes
the physical representation, not the set of positions, so it is the identity
here.
-/

/-- The in-memory scoped view over the persisted deleted bitmap. -/
structure DeletedBitmapModel where
  bitmap : Finset Nat
  isDirty : Bool
  deriving DecidableEq

/-- Embeds `DeletedBitmapModel::load`: deserializes the persisted bitmap (empty when
absent), initially clean. -/
def DeletedBitmapModel.load (db : LMDBDatabase) : DeletedBitmapModel :=
  { bitmap := fetchDeletedBitmap db, isDirty := false }

/-- Embeds `DeletedBitmapModel::merge`: in-memory set union; marks the model dirty. -/
def DeletedBitmapModel.merge (m : DeletedBitmapModel) (deleted : Finset Nat) :
    DeletedBitmapModel :=
  { bitmap := m.bitmap ∪ deleted, isDirty := true }

/-- Embeds `DeletedBitmapModel::remove`: in-memory set difference; marks the model
dirty. -/
def DeletedBitmapModel.remove (m : DeletedBitmapModel) (deleted : Finset Nat) :
    DeletedBitmapModel :=
  { bitmap := m.bitmap \ deleted, isDirty := true }

/-- Embeds `DeletedBitmapModel::save`: a no-op unless dirty; otherwise run-optimizes
and persists the bitmap under the metadata key. -/
def DeletedBitmapModel.save (m : DeletedBitmapModel) (db : LMDBDatabase) : LMDBDatabase :=
  if m.isDirty then { db with metadataDeletedBitmap := some m.bitmap } else db

/-!  ## The write-operation batch (`DbTransaction` / `apply_db_transaction` / `write`)

Modelled from the spec: `DbTransaction` and the `BlockchainBackend` trait are
declared outside the provided sources; per spec §4.4 a transaction is an
ordered sequence of write operations.  The embedded operation set is the
subset of the ~25 kinds exercised by the verified properties.
-/

/-- A single write operation of a `DbTransaction` (the embedded subset). -/
inductive WriteOperation where
  | insertChainHeader (header : BlockHeader) (accumData : BlockHeaderAccumulatedData)
  | deleteHeader (height : Nat)
  | deleteOrphan (hash : Hash)
  | insertOrphanChainTip (hash : Hash)
  | deleteOrphanChainTip (hash : Hash)
  | setBestBlock (height : Nat) (hash : Hash) (accumulatedDifficulty : Nat)
      (expectedPrevBestBlock : Hash) (timestamp : Nat)
  | setPruningHorizonConfig (pruningHorizon : Nat)
  | setPrunedHeight (height : Nat)
  | updateDeletedBitmap (deleted : Finset Nat)
  | pruneOutputsAtMmrPositions (outputPositions : List Nat)
  deriving DecidableEq

/-- The known-header check and four metadata overwrites of the
`SetBestBlock` arm (the part after the optimistic guard). -/
def applySetBestBlockWrite (db : LMDBDatabase) (height : Nat) (hash : Hash)
    (accumulatedDifficulty : Nat) (expectedPrevBestBlock : Hash) (timestamp : Nat) :
    Except ChainStorageError LMDBDatabase :=
  if ¬ texists db.blockHashesDb hash then
    .error (.invalidOperation (noBlockHeaderHashMsg expectedPrevBestBlock))
  else
    .ok { db with
      metadataChainHeight := some height
      metadataBestBlock := some hash
      metadataAccumulatedWork := some accumulatedDifficulty
      metadataBestBlockTimestamp := some timestamp }

/-- The `SetBestBlock` arm of `apply_db_transaction`: the optimistic guard on
the previously stored best block (checked only when `height > 0`), the
known-header check on `hash`, and only then the four metadata overwrites. -/
def applySetBestBlock (db : LMDBDatabase) (height : Nat) (hash : Hash)
    (accumulatedDifficulty : Nat) (expectedPrevBestBlock : Hash) (timestamp : Nat) :
    Except ChainStorageError LMDBDatabase :=
  if height > 0 then
    match fetchBestBlock db with
    | .error e => .error e
    | .ok prev =>
      if expectedPrevBestBlock ≠ prev then
        .error (.invalidOperation (bestBlockChangedMsg expectedPrevBestBlock prev))
      else
        applySetBestBlockWrite db height hash accumulatedDifficulty expectedPrevBestBlock
          timestamp
  else
    applySetBestBlockWrite db height hash accumulatedDifficulty expectedPrevBestBlock timestamp

/-- One arm of the `match op` in `LMDBDatabase::apply_db_transaction`. -/
def applyOp (db : LMDBDatabase) : WriteOperation → Except ChainStorageError LMDBDatabase
  | .insertChainHeader header accumData => insertHeader db header accumData
  | .deleteHeader height => deleteHeader db height
  | .deleteOrphan hash => deleteOrphan db hash
  | .insertOrphanChainTip hash =>
    match tinsert db.orphanChainTipsDb hash hash "orphan_chain_tips_db" with
    | .error e => .error e
    | .ok tips => .ok { db with orphanChainTipsDb := tips }
  | .deleteOrphanChainTip hash =>
    match tdelete db.orphanChainTipsDb hash "orphan_chain_tips_db" with
    | .error e => .error e
    | .ok tips => .ok { db with orphanChainTipsDb := tips }
  | .setBestBlock height hash accumulatedDifficulty expectedPrevBestBlock timestamp =>
    applySetBestBlock db height hash accumulatedDifficulty expectedPrevBestBlock timestamp
  | .setPruningHorizonConfig pruningHorizon =>
    .ok { db with metadataPruningHorizon := some pruningHorizon }
  | .setPrunedHeight height => .ok { db with metadataPrunedHeight := some height }
  | .updateDeletedBitmap deleted =>
    .ok (((DeletedBitmapModel.load db).merge deleted).save db)
  | .pruneOutputsAtMmrPositions outputPositions => pruneOutputsAtPositions db outputPositions

/-- The operation loop of `LMDBDatabase::apply_db_transaction`: operations
are applied strictly in their declared order; the first failure aborts the
remainder. -/
def applyOps (db : LMDBDatabase) : List WriteOperation → Except ChainStorageError LMDBDatabase
  | [] => .ok db
  | op :: rest =>
    match applyOp db op with
    | .ok db' => applyOps db' rest
    | .error e => .error e

/-- The constant `MAX_RESIZES` in `BlockchainBackend::write`. -/
def maxResizes : Nat := 5

instance {ε α : Type} [DecidableEq ε] [DecidableEq α] : DecidableEq (Except ε α) := fun
  | .ok a, .ok b =>
    if h : a = b then .isTrue (by rw [h]) else .isFalse (by intro hc; cases hc; exact h rfl)
  | .ok _, .error _ => .isFalse (by intro hc; cases hc)
  | .error _, .ok _ => .isFalse (by intro hc; cases hc)
  | .error e, .error f =>
    if h : e = f then .isTrue (by rw [h]) else .isFalse (by intro hc; cases hc; exact h rfl)

/-- The observable outcome of `BlockchainBackend::write`: the returned
result, the database state visible to readers after the call (the LMDB write
transaction is committed only on success, so on failure the prior state
remains visible), and the 0-based indices of the loop iterations on which
`apply_db_transaction` ran. -/
structure WriteOutcome where
  result : Except ChainStorageError Unit
  state : LMDBDatabase
  attempts : List Nat
  deriving DecidableEq

/-- Record that attempt `i` ran before the rest of a write outcome. -/
def withAttempt (i : Nat) (o : WriteOutcome) : WriteOutcome :=
  ⟨o.result, o.state, i :: o.attempts⟩

/-- The `for i in 0..MAX_RESIZES` retry loop of `BlockchainBackend::write`.
`resizeSignal i` models the environment: whether attempt `i` hits the LMDB
map-full condition (`DbResizeRequired`) before the batch's own logic can
decide; on such an attempt the store is resized and the whole batch retried
from scratch. -/
def writeLoop (resizeSignal : Nat → Bool) (db : LMDBDatabase) (ops : List WriteOperation) :
    Nat → Nat → WriteOutcome
  | 0, _ => ⟨.error (.dbTransactionTooLarge ops.length), db, []⟩
  | fuel + 1, i =>
    if resizeSignal i then
      withAttempt i (writeLoop resizeSignal db ops fuel (i + 1))
    else
      match applyOps db ops with
      | .error .dbResizeRequired => withAttempt i (writeLoop resizeSignal db ops fuel (i + 1))
      | .error e => ⟨.error e, db, [i]⟩
      | .ok db' => ⟨.ok (), db', [i]⟩

/-- Embeds `BlockchainBackend::write`: empty transactions return `Ok` immediately
without opening a write transaction; otherwise the batch is applied with up
to `MAX_RESIZES` whole-batch attempts, surfacing `DbTransactionTooLarge`
when every attempt requires a resize. -/
def write (resizeSignal : Nat → Bool) (db : LMDBDatabase) (ops : List WriteOperation) :
    WriteOutcome :=
  if ops.isEmpty then ⟨.ok (), db, []⟩
  else writeLoop resizeSignal db ops maxResizes 0

/-- An environment in which the memory map never fills up. -/
def noResize : Nat → Bool := fun _ => false

/-- Folding `insert_header` over a list of headers with their accumulated
data, in order, each inside a successful write (the "insert headers for
heights 0..=N in order" scenario). -/
def insertChainHeaders (db : LMDBDatabase) :
    List (BlockHeader × BlockHeaderAccumulatedData) → Except ChainStorageError LMDBDatabase
  | [] => .ok db
  | (header, accumData) :: rest =>
    match insertHeader db header accumData with
    | .ok db' => insertChainHeaders db' rest
    | .error e => .error e

/-!  ## Orphan eviction (`delete_oldest_orphans`) -/

/-- Stable insertion of an (height, hash) entry into a height-sorted list —
after all entries of smaller-or-equal height, matching the stability of
Rust's `sort_by` on the height comparator. -/
def insertByHeight (x : Nat × Hash) : List (Nat × Hash) → List (Nat × Hash)
  | [] => [x]
  | y :: ys => if y.1 < x.1 then y :: insertByHeight x ys else x :: y :: ys

/-- Stable sort by ascending height (`orphans.sort_by(|a, b| a.0.cmp(&b.0))`). -/
def sortByHeight : List (Nat × Hash) → List (Nat × Hash)
  | [] => []
  | x :: xs => insertByHeight x (sortByHeight xs)

/-- The eviction loop of `delete_oldest_orphans`: walk the height-sorted
orphans, stopping at the first orphan that is both strictly above the
horizon height and beyond the required eviction count. -/
def evictLoop (horizonHeight numOverLimit : Nat) :
    List (Nat × Hash) → Nat → List (Nat × Hash)
  | [], _ => []
  | (height, hash) :: rest, removedCount =>
    if height > horizonHeight ∧ removedCount ≥ numOverLimit then []
    else (height, hash) :: evictLoop horizonHeight numOverLimit rest (removedCount + 1)

/-- The orphans chosen for eviction by
`delete_oldest_orphans(horizon_height, orphan_storage_capacity)`. -/
def evictedOrphans (db : LMDBDatabase) (horizonHeight orphanStorageCapacity : Nat) :
    List (Nat × Hash) :=
  if db.orphansDb.length - orphanStorageCapacity = 0 then []
  else
    evictLoop horizonHeight (db.orphansDb.length - orphanStorageCapacity)
      (sortByHeight (db.orphansDb.map (fun p => (p.2.header.height, p.2.hash)))) 0

/-- Embeds `BlockchainBackend::delete_oldest_orphans`: nothing happens while the
stored count does not exceed the capacity; otherwise the chosen orphans are
deleted through a single `write` batch of `DeleteOrphan` operations. -/
def deleteOldestOrphans (db : LMDBDatabase) (horizonHeight orphanStorageCapacity : Nat) :
    WriteOutcome :=
  if db.orphansDb.length - orphanStorageCapacity = 0 then ⟨.ok (), db, []⟩
  else
    write noResize db
      ((evictedOrphans db horizonHeight orphanStorageCapacity).map
        (fun p => .deleteOrphan p.2))

/-!  ## Inbound new-block reconciliation (`InboundNodeCommsHandlers::reconcile_block`)

The handler's collaborators (chain metadata, mempool, peer requests, MMR-root
validation) are modelled as a pure environment; the network and mempool
interactions the handler performs are recorded as an ordered effect trace.
-/

/-- A `NewBlock` announcement: header, coinbase pair, and the non-coinbase
kernel excess signatures (opaque naturals). -/
structure NewBlock where
  header : BlockHeader
  coinbaseOutput : Nat
  coinbaseKernel : Nat
  kernelExcessSigs : List Nat
  deriving DecidableEq

/-- The outward interactions `reconcile_block` can perform. -/
inductive ReconcileEffect where
  | mempoolRetrieve (sigs : List Nat)
  | requestTxnsByExcessSig (sigs : List Nat)
  | mempoolInsertAll (txns : List Nat)
  | requestFullBlock (hash : Hash)
  | banPeer
  deriving DecidableEq

/-- Errors surfaced by the comms interface (the variant used here). -/
inductive CommsInterfaceError where
  | invalidPeerResponse
  deriving DecidableEq

/-- The pure environment standing for the handler's collaborators. -/
structure ReconcileEnv where
  bestBlock : Hash
  mempoolRetrieveBySigs : List Nat → List Nat × List Nat
  peerTxnsByExcessSig : List Nat → List Nat × List Nat
  peerFullBlock : Hash → Option Block
  mmrRootsMatch : Block → Bool

/-- Embeds `BlockBuilder::new().with_coinbase_utxo(..).with_transactions(..).with_header(..)`. -/
def buildBlock (header : BlockHeader) (coinbaseOutput coinbaseKernel : Nat)
    (transactions : List Nat) : Block :=
  { header, coinbaseOutput, coinbaseKernel, transactions }

/-- Embeds `request_full_block_from_peer`: asks the announcing peer for the block by
hash; a peer that fails to deliver is banned and the call errors. -/
def requestFullBlockFromPeer (env : ReconcileEnv) (blockHash : Hash) :
    Except CommsInterfaceError Block × List ReconcileEffect :=
  match env.peerFullBlock blockHash with
  | some block => (.ok block, [.requestFullBlock blockHash])
  | none => (.error .invalidPeerResponse, [.requestFullBlock blockHash, .banPeer])

/-- The final MMR-roots sanity check of `reconcile_block`; a mismatch falls
back to a full-block request from the peer. -/
def reconcileMmrCheck (env : ReconcileEnv) (newBlock : NewBlock) (transactions : List Nat)
    (effects : List ReconcileEffect) :
    Except CommsInterfaceError Block × List ReconcileEffect :=
  let block := buildBlock newBlock.header newBlock.coinbaseOutput newBlock.coinbaseKernel
    transactions
  if env.mmrRootsMatch block then
    (.ok block, effects)
  else
    let (result, fbEffects) := requestFullBlockFromPeer env newBlock.header.hash
    (result, effects ++ fbEffects)

/-- Embeds `InboundNodeCommsHandlers::reconcile_block`: the compact-block
reconciliation state machine, returning the block to apply together with the
trace of mempool/network interactions performed. -/
def reconcileBlock (env : ReconcileEnv) (newBlock : NewBlock) :
    Except CommsInterfaceError Block × List ReconcileEffect :=
  if newBlock.kernelExcessSigs.isEmpty then
    (.ok (buildBlock newBlock.header newBlock.coinbaseOutput newBlock.coinbaseKernel []), [])
  else if newBlock.header.prevHash ≠ env.bestBlock then
    if newBlock.kernelExcessSigs.isEmpty then
      (.ok (buildBlock newBlock.header newBlock.coinbaseOutput newBlock.coinbaseKernel []), [])
    else
      requestFullBlockFromPeer env newBlock.header.hash
  else
    let (knownTransactions, missingExcessSigs) :=
      env.mempoolRetrieveBySigs newBlock.kernelExcessSigs
    let queryEffect := ReconcileEffect.mempoolRetrieve newBlock.kernelExcessSigs
    if missingExcessSigs.isEmpty then
      reconcileMmrCheck env newBlock knownTransactions [queryEffect]
    else
      let (transactions, notFound) := env.peerTxnsByExcessSig missingExcessSigs
      let fetchEffects := [queryEffect, .requestTxnsByExcessSig missingExcessSigs] ++
        (if transactions.isEmpty then [] else [.mempoolInsertAll transactions])
      if ¬ notFound.isEmpty then
        let (result, fbEffects) := requestFullBlockFromPeer env newBlock.header.hash
        (result, fetchEffects ++ fbEffects)
      else
        reconcileMmrCheck env newBlock (knownTransactions ++ transactions) fetchEffects

/-!  ## Concrete fixtures used to evaluate the verified properties -/

/-- A genesis-like header at height 0. -/
def fixHeader0 : BlockHeader := ⟨0, 99, 100, 2, 3⟩

/-- A header at height 1 chaining onto `fixHeader0`. -/
def fixHeader1 : BlockHeader := ⟨1, 100, 101, 4, 6⟩

/-- Accumulated data for `fixHeader0`. -/
def fixAccum0 : BlockHeaderAccumulatedData := ⟨100, 0⟩

/-- Accumulated data for `fixHeader1`. -/
def fixAccum1 : BlockHeaderAccumulatedData := ⟨101, 0⟩

/-- The store after inserting the two-header chain into an empty store. -/
def fixDbChain : LMDBDatabase :=
  match insertChainHeaders emptyDb [(fixHeader0, fixAccum0), (fixHeader1, fixAccum1)] with
  | .ok db => db
  | .error _ => emptyDb

/-- A store whose best block is hash 100 at height 0. -/
def fixDbBest : LMDBDatabase :=
  { emptyDb with metadataBestBlock := some 100, blockHashesDb := [(100, 0)] }

/-- An unpruned output row. -/
def fixOutputRow : TransactionOutputRowData := ⟨some 77, 500, 501, 0, 12⟩

/-- A store holding `fixOutputRow` at MMR position 2 under header hash 300,
with the output-MMR-size index entry covering that position. -/
def fixDbUtxo : LMDBDatabase :=
  { emptyDb with
    outputMmrSizeIndex := [(4, (0, 300))]
    utxosDb := [(OutputKey.mk 300 2, fixOutputRow)] }

/-- An orphan block at height 5 with hash 901. -/
def fixOrphanA : Block := ⟨⟨5, 900, 901, 0, 0⟩, 0, 0, []⟩

/-- An orphan block at height 5 with hash 902. -/
def fixOrphanB : Block := ⟨⟨5, 900, 902, 0, 0⟩, 0, 0, []⟩

/-- A store holding the two height-5 orphans (with their parent-map rows). -/
def fixDbOrphans : LMDBDatabase :=
  { emptyDb with
    orphansDb := [(901, fixOrphanA), (902, fixOrphanB)]
    orphanParentMapIndex := [(900, 901), (900, 902)] }

/-- A reconciliation environment whose tip is hash 42, whose mempool and
peer return every requested signature, and whose MMR check always passes. -/
def fixEnv : ReconcileEnv :=
  ⟨42, fun s => (s, []), fun s => (s, []), fun _ => none, fun _ => true⟩

/-- A resize signal that fires on the first two attempts only. -/
def fixResizeTwice : Nat → Bool := fun i => decide (i < 2)

/-- A store whose persisted deleted bitmap holds positions 0 and 1. -/
def fixDbBitmap : LMDBDatabase :=
  { emptyDb with metadataDeletedBitmap := some {0, 1} }

/-- The headers table maps each height key to a header whose `height` field
equals that key — an invariant of every store reachable through
`insert_header`. -/
def HeadersCoherent (db : LMDBDatabase) : Prop :=
  ∀ p ∈ db.headersDb, (p.2 : BlockHeader).height = p.1

instance (db : LMDBDatabase) : Decidable (HeadersCoherent db) := by
  unfold HeadersCoherent; infer_instance

/-- The header heights stored in the table are exactly `0, 1, ..., n-1` — the
contiguity invariant of the data model. -/
def HeightsContiguous (db : LMDBDatabase) (n : Nat) : Prop :=
  (db.headersDb.map Prod.fst).Perm (List.range n)

instance (db : LMDBDatabase) (n : Nat) : Decidable (HeightsContiguous db n) := by
  unfold HeightsContiguous; infer_instance

/-- The store left by deleting the height-1 header from `fixDbChain`. -/
def fixDbChainDel : LMDBDatabase :=
  match deleteHeader fixDbChain 1 with
  | .ok db => db
  | .error _ => emptyDb

/-- The next height `insert_header` will accept (0 on an empty store). -/
def nextHeight (db : LMDBDatabase) : Nat :=
  match fetchLastHeaderInTxn db with
  | none => 0
  | some h => h.height + 1

/-- Attempt `i` is the first on which the map is not full. -/
def FirstApply (resizeSignal : Nat → Bool) (i : Nat) : Prop :=
  i < maxResizes ∧ resizeSignal i = false ∧ ∀ j < i, resizeSignal j = true

instance (resizeSignal : Nat → Bool) (i : Nat) : Decidable (FirstApply resizeSignal i) := by
  unfold FirstApply; infer_instance

/-!  ## Lemmas about the table primitives -/

theorem tget_mem {K V : Type} [DecidableEq K] {t : Table K V} {k : K} {v : V}
    (h : tget t k = some v) : (k, v) ∈ t := by
  induction t with
  | nil => simp [tget] at h
  | cons p rest ih =>
    obtain ⟨k', v'⟩ := p
    rw [tget] at h
    split at h
    · rename_i hk
      cases h
      subst hk
      exact List.mem_cons_self _ _
    · exact List.mem_cons_of_mem _ (ih h)

theorem mem_tget_isSome {K V : Type} [DecidableEq K] {t : Table K V} {k : K} {v : V}
    (h : (k, v) ∈ t) : (tget t k).isSome := by
  induction t with
  | nil => simp at h
  | cons p rest ih =>
    obtain ⟨k', v'⟩ := p
    rw [tget]
    by_cases hk : k' = k
    · simp [hk]
    · rcases List.mem_cons.mp h with heq | hmem
      · cases heq; exact absurd rfl hk
      · simp only [if_neg hk]
        exact ih hmem

theorem tget_eq_none_of_not_mem {K V : Type} [DecidableEq K] {t : Table K V} {k : K}
    (h : ∀ v : V, (k, v) ∉ t) : tget t k = none := by
  cases hg : tget t k with
  | none => rfl
  | some v => exact absurd (tget_mem hg) (h v)

theorem not_mem_of_tget_eq_none {K V : Type} [DecidableEq K] {t : Table K V} {k : K} {v : V}
    (h : tget t k = none) : (k, v) ∉ t := by
  intro hmem
  have := mem_tget_isSome hmem
  rw [h] at this
  simp at this

theorem tlast_eq_none_iff {V : Type} {t : Table Nat V} : tlast t = none ↔ t = [] := by
  cases t with
  | nil => simp [tlast]
  | cons p rest =>
    rw [tlast]
    constructor
    · intro h
      cases hr : tlast rest with
      | none => rw [hr] at h; simp at h
      | some q => rw [hr] at h; by_cases hq : q.1 > p.1 <;> simp [hq] at h
    · intro h; cases h

theorem tlast_mem {V : Type} {t : Table Nat V} {p : Nat × V} (h : tlast t = some p) :
    p ∈ t := by
  induction t with
  | nil => simp [tlast] at h
  | cons q rest ih =>
    rw [tlast] at h
    split at h
    · cases h
      exact List.mem_cons_self _ _
    · rename_i r hr
      split at h
      · cases h
        exact List.mem_cons_of_mem _ (ih hr)
      · cases h
        exact List.mem_cons_self _ _

theorem tlast_key_max {V : Type} {t : Table Nat V} {p : Nat × V} (h : tlast t = some p) :
    ∀ q ∈ t, q.1 ≤ p.1 := by
  revert h
  induction t generalizing p with
  | nil => intro h; simp [tlast] at h
  | cons x rest ih =>
    intro h q hq
    rw [tlast] at h
    split at h
    · rename_i hr
      cases h
      rcases List.mem_cons.mp hq with heq | hmem
      · subst heq; exact le_refl _
      · rw [tlast_eq_none_iff.mp hr] at hmem
        simp at hmem
    · rename_i r hr
      split at h
      · rename_i hgt
        cases h
        rcases List.mem_cons.mp hq with heq | hmem
        · subst heq; exact le_of_lt hgt
        · exact ih hr q hmem
      · rename_i hgt
        cases h
        rcases List.mem_cons.mp hq with heq | hmem
        · subst heq; exact le_refl _
        · exact le_trans (ih hr q hmem) (not_lt.mp hgt)

theorem tlast_cons_of_lt {V : Type} {t : Table Nat V} {k : Nat} {v : V}
    (h : ∀ q ∈ t, q.1 < k) : tlast ((k, v) :: t) = some (k, v) := by
  rw [tlast]
  cases hr : tlast t with
  | none => rfl
  | some q =>
    have := h q (tlast_mem hr)
    simp only [gt_iff_lt]
    rw [if_neg (by omega)]

theorem tlast_exists_max {V : Type} {t : Table Nat V} {m : Nat}
    (hmem : ∃ v : V, (m, v) ∈ t) (hmax : ∀ q ∈ t, q.1 ≤ m) :
    ∃ w : V, tlast t = some (m, w) := by
  induction t with
  | nil => obtain ⟨v, hv⟩ := hmem; simp at hv
  | cons x rest ih =>
    rw [tlast]
    cases hr : tlast rest with
    | none =>
      have hrest : rest = [] := tlast_eq_none_iff.mp hr
      subst hrest
      obtain ⟨v, hv⟩ := hmem
      simp only [List.mem_singleton] at hv
      subst hv
      exact ⟨v, rfl⟩
    | some q =>
      have hqmem := tlast_mem hr
      have hqmax := tlast_key_max hr
      obtain ⟨v, hv⟩ := hmem
      simp only
      rcases List.mem_cons.mp hv with heq | hmem'
      · cases heq
        have hqle : q.1 ≤ m := hmax q (List.mem_cons_of_mem _ hqmem)
        rw [if_neg (by simp only [gt_iff_lt]; omega)]
        exact ⟨v, rfl⟩
      · have hqm : q.1 = m := le_antisymm (hmax q (List.mem_cons_of_mem _ hqmem)) (hqmax _ hmem')
        by_cases hgt : q.1 > x.1
        · rw [if_pos hgt]
          exact ⟨q.2, by rw [← hqm]⟩
        · rw [if_neg hgt]
          refine ⟨x.2, ?_⟩
          have hxle : x.1 ≤ m := hmax x (List.mem_cons_self _ _)
          have hxm : x.1 = m := by omega
          rw [← hxm]

/-!  ## Lemmas about header insertion -/

theorem tinsert_ok {K V : Type} [DecidableEq K] {t t' : Table K V} {k : K} {v : V} {s : String}
    (h : tinsert t k v s = .ok t') : t' = (k, v) :: t ∧ tget t k = none := by
  rw [tinsert] at h
  split at h
  · cases h
  · rename_i hg
    cases h
    exact ⟨rfl, hg⟩

theorem insertHeaderTables_ok {db db' : LMDBDatabase} {hd : BlockHeader}
    {a : BlockHeaderAccumulatedData} (h : insertHeaderTables db hd a = .ok db') :
    db'.headersDb = (hd.height, hd) :: db.headersDb := by
  rw [insertHeaderTables] at h
  split at h
  · cases h
  · rename_i t1 h1
    split at h
    · cases h
    · rename_i t2 h2
      split at h
      · cases h
      · rename_i t3 h3
        split at h
        · cases h
        · rename_i t4 h4
          split at h
          · cases h
          · rename_i t5 h5
            cases h
            exact (tinsert_ok h3).1

theorem insertHeader_ok_spec {db db' : LMDBDatabase} {hd : BlockHeader}
    {a : BlockHeaderAccumulatedData} (h : insertHeader db hd a = .ok db') :
    tget db.headersDb hd.height = none ∧
    db'.headersDb = (hd.height, hd) :: db.headersDb ∧
    ((fetchLastHeaderInTxn db = none ∧ hd.height = 0) ∨
      (∃ last, fetchLastHeaderInTxn db = some last ∧ last.height = hd.height - 1 ∧
        last.hash = hd.prevHash)) := by
  rw [insertHeader] at h
  split at h
  · split at h <;> cases h
  · rename_i hnone
    split at h
    · rename_i last hlast
      split at h
      · cases h
      · rename_i hht
        split at h
        · cases h
        · rename_i hhash
          exact ⟨hnone, insertHeaderTables_ok h,
            .inr ⟨last, hlast, by omega, by simpa using hhash⟩⟩
    · rename_i hempty
      split at h
      · cases h
      · rename_i hzero
        exact ⟨hnone, insertHeaderTables_ok h, .inl ⟨hempty, by omega⟩⟩

theorem insertHeader_fetchLast {db db' : LMDBDatabase} {hd : BlockHeader}
    {a : BlockHeaderAccumulatedData} (hcoh : HeadersCoherent db)
    (h : insertHeader db hd a = .ok db') :
    fetchLastHeaderInTxn db' = some hd ∧ HeadersCoherent db' ∧ hd.height = nextHeight db := by
  obtain ⟨hnone, hcons, hbranch⟩ := insertHeader_ok_spec h
  have hlt : ∀ q ∈ db.headersDb, q.1 < hd.height := by
    rcases hbranch with ⟨hempty, _⟩ | ⟨last, hlast, hprev, _⟩
    · intro q hq
      have : db.headersDb = [] := by
        rw [fetchLastHeaderInTxn] at hempty
        exact tlast_eq_none_iff.mp (by
          cases hl : tlast db.headersDb
          · rfl
          · rw [hl] at hempty; simp at hempty)
      rw [this] at hq
      simp at hq
    · intro q hq
      rw [fetchLastHeaderInTxn] at hlast
      cases hl : tlast db.headersDb with
      | none => rw [hl] at hlast; simp at hlast
      | some p =>
        rw [hl] at hlast
        simp at hlast
        have hkey : p.2.height = p.1 := hcoh p (tlast_mem hl)
        have hle : q.1 ≤ p.1 := tlast_key_max hl q hq
        have hne0 : hd.height ≠ 0 := by
          intro h0
          have hp1 : p.1 = 0 := by rw [← hkey, hlast, hprev, h0]
          have := mem_tget_isSome (t := db.headersDb) (k := p.1) (v := p.2) (by
            simpa using tlast_mem hl)
          rw [hp1, ← h0, hnone] at this
          simp at this
        have : p.1 = hd.height - 1 := by rw [← hkey, hlast, hprev]
        omega
  refine ⟨?_, ?_, ?_⟩
  · rw [fetchLastHeaderInTxn, hcons, tlast_cons_of_lt hlt]
    rfl
  · intro p hp
    rw [hcons] at hp
    rcases List.mem_cons.mp hp with heq | hmem
    · subst heq; rfl
    · exact hcoh p hmem
  · rcases hbranch with ⟨hempty, hzero⟩ | ⟨last, hlast, hprev, _⟩
    · rw [nextHeight, hempty, hzero]
    · have hlast' := hlast
      rw [fetchLastHeaderInTxn] at hlast'
      cases hl : tlast db.headersDb with
      | none => rw [hl] at hlast'; simp at hlast'
      | some p =>
        rw [hl] at hlast'
        simp at hlast'
        have hkey : p.2.height = p.1 := hcoh p (tlast_mem hl)
        have hplt := hlt p (tlast_mem hl)
        have hnl : nextHeight db = last.height + 1 := by rw [nextHeight, hlast]
        have hlp : last.height = p.1 := by rw [← hlast', hkey]
        omega

theorem insertChainHeaders_spec {l : List (BlockHeader × BlockHeaderAccumulatedData)} :
    ∀ {db db' : LMDBDatabase}, HeadersCoherent db → insertChainHeaders db l = .ok db' →
    HeadersCoherent db' ∧
    l.map (fun p => p.1.height) = List.range' (nextHeight db) l.length ∧
    ((l = [] ∧ db' = db) ∨
      (∃ pr, l.getLast? = some pr ∧ fetchLastHeaderInTxn db' = some pr.1 ∧
        pr.1.height + 1 = nextHeight db + l.length)) := by
  induction l with
  | nil =>
    intro db db' hcoh h
    rw [insertChainHeaders] at h
    cases h
    exact ⟨hcoh, by simp, .inl ⟨rfl, rfl⟩⟩
  | cons x rest ih =>
    intro db db' hcoh h
    obtain ⟨hd, a⟩ := x
    rw [insertChainHeaders] at h
    split at h
    · rename_i db1 h1
      obtain ⟨hlast1, hcoh1, hheight⟩ := insertHeader_fetchLast hcoh h1
      obtain ⟨hcoh', hmap, hrest⟩ := ih hcoh1 h
      have hnext1 : nextHeight db1 = hd.height + 1 := by rw [nextHeight, hlast1]
      refine ⟨hcoh', ?_, ?_⟩
      · simp only [List.map_cons, hmap, hnext1, List.length_cons, hheight]
        rw [List.range'_succ]
      · rcases hrest with ⟨hrnil, hdb⟩ | ⟨pr, hpr, hfl, hh⟩
        · subst hrnil
          refine .inr ⟨(hd, a), by simp, ?_, ?_⟩
          · cases hdb; exact hlast1
          · simp [hheight]
        · refine .inr ⟨pr, ?_, hfl, ?_⟩
          · cases rest with
            | nil => simp [List.getLast?] at hpr
            | cons y ys => rw [List.getLast?_cons_cons]; exact hpr
          · rw [hh, hnext1, hheight]
            simp only [List.length_cons]
            omega
    · cases h

/-- C2: `insert_header` fails when any header already occupies the height
(with a distinct error when the stored header's hash differs from the
accumulated data's hash), fails on a non-contiguous insert (last height not
`height - 1`), fails on broken linkage (last hash ≠ `prev_hash`), fails when
the store is empty and the height is not 0; and after successfully
inserting a chain of headers into an empty store, `fetch_last_header`
returns the last inserted header, whose height is N = length - 1. -/
theorem insert_header_contiguity_spec (db : LMDBDatabase) (hd : BlockHeader)
    (a : BlockHeaderAccumulatedData) (l : List (BlockHeader × BlockHeaderAccumulatedData))
    (db' : LMDBDatabase) :
    (∀ cur, tget db.headersDb hd.height = some cur →
      (cur.hash ≠ a.hash →
        insertHeader db hd a = .error (.invalidOperation
          (differentHeaderAtHeightMsg hd.height a.hash cur.hash))) ∧
      (cur.hash = a.hash →
        insertHeader db hd a = .error (.invalidOperation
          (headerAlreadyExistsMsg hd.height cur.hash)))) ∧
    (∀ last, tget db.headersDb hd.height = none → fetchLastHeaderInTxn db = some last →
      last.height ≠ hd.height - 1 →
      insertHeader db hd a = .error (.invalidOperation
        (headerOutOfOrderMsg last.height hd.height))) ∧
    (∀ last, tget db.headersDb hd.height = none → fetchLastHeaderInTxn db = some last →
      last.height = hd.height - 1 → last.hash ≠ hd.prevHash →
      insertHeader db hd a = .error (.invalidOperation
        (brokenChainMsg hd.height last.hash hd.prevHash))) ∧
    (tget db.headersDb hd.height = none → fetchLastHeaderInTxn db = none → hd.height ≠ 0 →
      insertHeader db hd a = .error (.invalidOperation (firstHeaderNotZeroMsg hd.height))) ∧
    (insertChainHeaders emptyDb l = .ok db' → l ≠ [] →
      ∃ pr, l.getLast? = some pr ∧ fetchLastHeaderInTxn db' = some pr.1 ∧
        pr.1.height + 1 = l.length) := by
  refine ⟨?_, ?_, ?_, ?_, ?_⟩
  · intro cur hget
    constructor
    · intro hne
      rw [insertHeader, hget]
      simp [hne]
    · intro heq
      rw [insertHeader, hget]
      simp [heq]
  · intro last hget hlast hne
    rw [insertHeader, hget, hlast]
    simp [hne]
  · intro last hget hlast heq hne
    rw [insertHeader, hget, hlast]
    simp [heq, hne]
  · intro hget hlast hne
    rw [insertHeader, hget, hlast]
    simp [hne]
  · intro hfold hne
    have hcoh : HeadersCoherent emptyDb := by
      intro p hp
      simp [emptyDb] at hp
    have hnx : nextHeight emptyDb = 0 := rfl
    obtain ⟨_, _, hrest⟩ := insertChainHeaders_spec hcoh hfold
    rcases hrest with ⟨hnil, _⟩ | ⟨pr, hpr, hfl, hh⟩
    · exact absurd hnil hne
    · exact ⟨pr, hpr, hfl, by rw [hh, hnx]; omega⟩

/-- Witness for C2 at the concrete two-header chain: the last header after
inserting heights 0..=1 is the height-1 header, and an out-of-order insert
at height 3 fails with the out-of-order error. -/
theorem insert_header_contiguity_spec_witness :
    (∃ pr, [(fixHeader0, fixAccum0), (fixHeader1, fixAccum1)].getLast? = some pr ∧
      fetchLastHeaderInTxn fixDbChain = some pr.1 ∧ pr.1.height + 1 = 2) ∧
    insertHeader fixDbChain ⟨3, 101, 103, 8, 12⟩ fixAccum1 =
      .error (.invalidOperation (headerOutOfOrderMsg 1 3)) := by
  have h := insert_header_contiguity_spec fixDbChain ⟨3, 101, 103, 8, 12⟩ fixAccum1
    [(fixHeader0, fixAccum0), (fixHeader1, fixAccum1)] fixDbChain
  constructor
  · exact h.2.2.2.2 (by decide) (by decide)
  · exact h.2.1 fixHeader1 (by decide) (by decide) (by decide)

/-!  ## The batched write path never produces `DbResizeRequired` itself

In the store, `DbResizeRequired` originates from the memory-mapped
environment, never from the operation logic; this section proves the
embedded operations respect that.
-/

theorem tinsert_error_eq {K V : Type} [DecidableEq K] {t : Table K V} {k : K} {v : V}
    {s : String} {e : ChainStorageError} (h : tinsert t k v s = .error e) :
    e = .keyExists s := by
  rw [tinsert] at h
  split at h
  · cases h; rfl
  · cases h

theorem tdelete_error_eq {K V : Type} [DecidableEq K] {t : Table K V} {k : K} {s : String}
    {e : ChainStorageError} (h : tdelete t k s = .error e) :
    e = .valueNotFound s "key" "" := by
  rw [tdelete] at h
  split at h
  · cases h
  · cases h; rfl

theorem tdeleteKeyValue_error_eq {t : List (Hash × Hash)} {k v : Hash}
    {e : ChainStorageError} (h : tdeleteKeyValue t k v = .error e) :
    e = .valueNotFound "orphan_parent_map_index" "key" "" := by
  rw [tdeleteKeyValue] at h
  split at h
  · cases h
  · cases h; rfl

theorem insertHeaderTables_ne_resize (db : LMDBDatabase) (hd : BlockHeader)
    (a : BlockHeaderAccumulatedData) :
    insertHeaderTables db hd a ≠ .error .dbResizeRequired := by
  rw [insertHeaderTables]
  split
  · rename_i e he; rw [tinsert_error_eq he]; simp
  · split
    · rename_i e he; rw [tinsert_error_eq he]; simp
    · split
      · rename_i e he; rw [tinsert_error_eq he]; simp
      · split
        · rename_i e he; rw [tinsert_error_eq he]; simp
        · split
          · rename_i e he; rw [tinsert_error_eq he]; simp
          · simp

theorem insertHeader_ne_resize (db : LMDBDatabase) (hd : BlockHeader)
    (a : BlockHeaderAccumulatedData) : insertHeader db hd a ≠ .error .dbResizeRequired := by
  rw [insertHeader]
  split
  · split <;> simp
  · split
    · split
      · simp
      · split
        · simp
        · exact insertHeaderTables_ne_resize _ _ _
    · split
      · simp
      · exact insertHeaderTables_ne_resize _ _ _

theorem deleteHeader_ne_resize (db : LMDBDatabase) (height : Nat) :
    deleteHeader db height ≠ .error .dbResizeRequired := by
  rw [deleteHeader]
  split
  · simp
  · split
    · simp
    · split
      · simp
      · split
        · simp
        · split
          · simp
          · split
            · rename_i e he; rw [tdelete_error_eq he]; simp
            · split
              · rename_i e he; rw [tdelete_error_eq he]; simp
              · split
                · rename_i e he; rw [tdelete_error_eq he]; simp
                · split
                  · rename_i e he; rw [tdelete_error_eq he]; simp
                  · split
                    · rename_i e he; rw [tdelete_error_eq he]; simp
                    · simp

theorem pruneOutput_ne_resize (db : LMDBDatabase) (key : OutputKey) :
    pruneOutput db key ≠ .error .dbResizeRequired := by
  rw [pruneOutput]
  split
  · simp
  · split <;> simp

theorem pruneOutputsAtPositions_ne_resize (positions : List Nat) :
    ∀ db : LMDBDatabase, pruneOutputsAtPositions db positions ≠ .error .dbResizeRequired := by
  induction positions with
  | nil => intro db; rw [pruneOutputsAtPositions]; simp
  | cons pos rest ih =>
    intro db
    rw [pruneOutputsAtPositions]
    split
    · simp
    · split
      · rename_i e he
        intro hc
        injection hc with hc'
        rw [hc'] at he
        exact pruneOutput_ne_resize _ _ he
      · exact ih _

theorem deleteOrphanTipStep_ne_resize (db : LMDBDatabase) (hash parentHash : Hash) :
    deleteOrphanTipStep db hash parentHash ≠ .error .dbResizeRequired := by
  rw [deleteOrphanTipStep]
  split
  · split
    · rename_i e he; rw [tdelete_error_eq he]; simp
    · split
      · split
        · rename_i e he; rw [tinsert_error_eq he]; simp
        · simp
      · simp
  · simp

theorem deleteOrphanAccumStep_ne_resize (db : LMDBDatabase) (hash : Hash) :
    deleteOrphanAccumStep db hash ≠ .error .dbResizeRequired := by
  rw [deleteOrphanAccumStep]
  split
  · split
    · rename_i e he; rw [tdelete_error_eq he]; simp
    · simp
  · simp

theorem deleteOrphan_ne_resize (db : LMDBDatabase) (hash : Hash) :
    deleteOrphan db hash ≠ .error .dbResizeRequired := by
  rw [deleteOrphan]
  split
  · simp
  · split
    · rename_i e he; rw [tdeleteKeyValue_error_eq he]; simp
    · split
      · rename_i e he
        intro hc
        injection hc with hc'
        rw [hc'] at he
        exact deleteOrphanTipStep_ne_resize _ _ _ he
      · split
        · rename_i e he
          intro hc
          injection hc with hc'
          rw [hc'] at he
          exact deleteOrphanAccumStep_ne_resize _ _ he
        · split
          · rename_i e he; rw [tdelete_error_eq he]; simp
          · simp

theorem fetchBestBlock_error_eq {db : LMDBDatabase} {e : ChainStorageError}
    (h : fetchBestBlock db = .error e) : e = .valueNotFound "ChainMetadata" "BestBlock" "" := by
  rw [fetchBestBlock] at h
  split at h
  · cases h
  · cases h; rfl

theorem applySetBestBlockWrite_ne_resize (db : LMDBDatabase) (height : Nat) (hash : Hash)
    (ad : Nat) (exp : Hash) (ts : Nat) :
    applySetBestBlockWrite db height hash ad exp ts ≠ .error .dbResizeRequired := by
  rw [applySetBestBlockWrite]
  split <;> simp

theorem applySetBestBlock_ne_resize (db : LMDBDatabase) (height : Nat) (hash : Hash)
    (ad : Nat) (exp : Hash) (ts : Nat) :
    applySetBestBlock db height hash ad exp ts ≠ .error .dbResizeRequired := by
  rw [applySetBestBlock]
  split
  · split
    · rename_i e he; rw [fetchBestBlock_error_eq he]; simp
    · split
      · simp
      · exact applySetBestBlockWrite_ne_resize _ _ _ _ _ _
  · exact applySetBestBlockWrite_ne_resize _ _ _ _ _ _

theorem applyOp_ne_resize (db : LMDBDatabase) (op : WriteOperation) :
    applyOp db op ≠ .error .dbResizeRequired := by
  cases op with
  | insertChainHeader hd a => exact insertHeader_ne_resize _ _ _
  | deleteHeader height => exact deleteHeader_ne_resize _ _
  | deleteOrphan hash => exact deleteOrphan_ne_resize _ _
  | insertOrphanChainTip hash =>
    rw [applyOp]
    split
    · rename_i e he; rw [tinsert_error_eq he]; simp
    · simp
  | deleteOrphanChainTip hash =>
    rw [applyOp]
    split
    · rename_i e he; rw [tdelete_error_eq he]; simp
    · simp
  | setBestBlock height hash ad exp ts => exact applySetBestBlock_ne_resize _ _ _ _ _ _
  | setPruningHorizonConfig ph => rw [applyOp]; simp
  | setPrunedHeight height => rw [applyOp]; simp
  | updateDeletedBitmap deleted => rw [applyOp]; simp
  | pruneOutputsAtMmrPositions positions => exact pruneOutputsAtPositions_ne_resize _ _

theorem applyOps_ne_resize (ops : List WriteOperation) :
    ∀ db : LMDBDatabase, applyOps db ops ≠ .error .dbResizeRequired := by
  induction ops with
  | nil => intro db; rw [applyOps]; simp
  | cons op rest ih =>
    intro db
    rw [applyOps]
    split
    · exact ih _
    · rename_i e he
      intro hc
      injection hc with hc'
      rw [hc'] at he
      exact applyOp_ne_resize _ _ he

/-!  ## Lemmas about the write retry loop -/

theorem applyOps_error_first {ops : List WriteOperation} :
    ∀ {db : LMDBDatabase} {e : ChainStorageError}, applyOps db ops = .error e →
    ∃ k, ∃ hk : k < ops.length, ∃ dbk, applyOps db (ops.take k) = .ok dbk ∧
      applyOp dbk (ops.get ⟨k, hk⟩) = .error e := by
  induction ops with
  | nil =>
    intro db e h
    rw [applyOps] at h
    cases h
  | cons op rest ih =>
    intro db e h
    rw [applyOps] at h
    split at h
    · rename_i db1 hop
      obtain ⟨k, hk, dbk, hpre, herr⟩ := ih h
      refine ⟨k + 1, by simpa using Nat.succ_lt_succ hk, dbk, ?_, herr⟩
      show applyOps db (op :: rest.take k) = .ok dbk
      rw [applyOps, hop]
      exact hpre
    · rename_i e' he'
      cases h
      exact ⟨0, by simp, db, by rw [List.take_zero, applyOps], he'⟩

theorem writeLoop_ok {rs : Nat → Bool} {db db' : LMDBDatabase} {ops : List WriteOperation}
    (hok : applyOps db ops = .ok db') :
    ∀ fuel i i0, i ≤ i0 → i0 < i + fuel → rs i0 = false →
    (∀ j, i ≤ j → j < i0 → rs j = true) →
    writeLoop rs db ops fuel i = ⟨.ok (), db', List.range' i (i0 + 1 - i)⟩ := by
  intro fuel
  induction fuel with
  | zero =>
    intro i i0 h1 h2 _ _
    omega
  | succ fuel ih =>
    intro i i0 hle hlt hi0 hall
    rw [writeLoop]
    by_cases hii : i = i0
    · subst hii
      rw [hi0]
      simp only [Bool.false_eq_true, if_false]
      rw [hok]
      have h1 : i + 1 - i = 1 := by omega
      rw [h1, List.range'_one]
    · have hi : i < i0 := by omega
      rw [hall i (le_refl _) hi]
      simp only [if_true]
      rw [ih (i + 1) i0 (by omega) (by omega) hi0 (fun j hj1 hj2 => hall j (by omega) hj2)]
      rw [withAttempt]
      have h1 : i0 + 1 - i = (i0 - i) + 1 := by omega
      have h2 : i0 + 1 - (i + 1) = i0 - i := by omega
      rw [h1, h2, List.range'_succ]

theorem writeLoop_error {rs : Nat → Bool} {db : LMDBDatabase} {ops : List WriteOperation}
    {e : ChainStorageError} (herr : applyOps db ops = .error e)
    (hne : e ≠ .dbResizeRequired) :
    ∀ fuel i i0, i ≤ i0 → i0 < i + fuel → rs i0 = false →
    (∀ j, i ≤ j → j < i0 → rs j = true) →
    writeLoop rs db ops fuel i = ⟨.error e, db, List.range' i (i0 + 1 - i)⟩ := by
  intro fuel
  induction fuel with
  | zero =>
    intro i i0 h1 h2 _ _
    omega
  | succ fuel ih =>
    intro i i0 hle hlt hi0 hall
    rw [writeLoop]
    by_cases hii : i = i0
    · subst hii
      rw [hi0]
      simp only [Bool.false_eq_true, if_false]
      rw [herr]
      have h1 : i + 1 - i = 1 := by omega
      rw [h1, List.range'_one]
      cases e with
      | dbResizeRequired => exact absurd rfl hne
      | valueNotFound a b c => rfl
      | keyExists t => rfl
      | invalidOperation m => rfl
      | dataInconsistencyDetected f d => rfl
      | dbTransactionTooLarge n => rfl
    · have hi : i < i0 := by omega
      rw [hall i (le_refl _) hi]
      simp only [if_true]
      rw [ih (i + 1) i0 (by omega) (by omega) hi0 (fun j hj1 hj2 => hall j (by omega) hj2)]
      rw [withAttempt]
      have h1 : i0 + 1 - i = (i0 - i) + 1 := by omega
      have h2 : i0 + 1 - (i + 1) = i0 - i := by omega
      rw [h1, h2, List.range'_succ]

theorem writeLoop_allResize {rs : Nat → Bool} {db : LMDBDatabase} {ops : List WriteOperation} :
    ∀ fuel i, (∀ j, i ≤ j → j < i + fuel → rs j = true) →
    writeLoop rs db ops fuel i =
      ⟨.error (.dbTransactionTooLarge ops.length), db, List.range' i fuel⟩ := by
  intro fuel
  induction fuel with
  | zero =>
    intro i _
    rw [writeLoop]
    rfl
  | succ fuel ih =>
    intro i hall
    rw [writeLoop, hall i (le_refl _) (by omega)]
    simp only [if_true]
    rw [ih (i + 1) (fun j h1 h2 => hall j (by omega) (by omega))]
    rw [withAttempt, List.range'_succ]

/-- C1: every batch applies its operations strictly in declared order inside
one write transaction; the commit happens only when every operation
succeeds, and a failing operation makes `write` return that operation's
error while the observable state stays exactly the pre-call state (no
effect of any preceding operation of the batch survives). -/
theorem write_batch_atomic (rs : Nat → Bool) (i0 : Nat) (db : LMDBDatabase)
    (ops : List WriteOperation) (hfa : FirstApply rs i0) :
    (∀ db', applyOps db ops = .ok db' →
      (write rs db ops).result = .ok () ∧ (write rs db ops).state = db') ∧
    (∀ e, applyOps db ops = .error e →
      (write rs db ops).result = .error e ∧ (write rs db ops).state = db ∧
      ∃ k, ∃ hk : k < ops.length, ∃ dbk,
        applyOps db (ops.take k) = .ok dbk ∧ applyOp dbk (ops.get ⟨k, hk⟩) = .error e) := by
  obtain ⟨hi0lt, hi0f, hprev⟩ := hfa
  constructor
  · intro db' hok
    rw [write]
    by_cases hemp : ops.isEmpty
    · rw [if_pos hemp]
      have hnil : ops = [] := List.isEmpty_iff.mp hemp
      rw [hnil, applyOps] at hok
      cases hok
      exact ⟨rfl, rfl⟩
    · rw [if_neg hemp]
      rw [writeLoop_ok hok maxResizes 0 i0 (by omega) (by
        have : maxResizes = 5 := rfl
        omega) hi0f (fun j _ hj => hprev j hj)]
      exact ⟨rfl, rfl⟩
  · intro e herr
    have hnil : ops ≠ [] := by
      intro h
      rw [h, applyOps] at herr
      cases herr
    have hene : e ≠ .dbResizeRequired := by
      intro h
      rw [h] at herr
      exact applyOps_ne_resize _ _ herr
    rw [write, if_neg (by simpa using hnil)]
    rw [writeLoop_error herr hene maxResizes 0 i0 (by omega) (by
      have : maxResizes = 5 := rfl
      omega) hi0f (fun j _ hj => hprev j hj)]
    exact ⟨rfl, rfl, applyOps_error_first herr⟩

/-- Witness for C1: a concrete two-operation batch whose second operation
fails leaves the empty store untouched and returns that operation's
not-found error. -/
theorem write_batch_atomic_witness :
    (write noResize emptyDb [.setPrunedHeight 7, .deleteOrphanChainTip 5]).result =
      .error (.valueNotFound "orphan_chain_tips_db" "key" "") ∧
    (write noResize emptyDb [.setPrunedHeight 7, .deleteOrphanChainTip 5]).state = emptyDb := by
  have h := write_batch_atomic noResize 0 emptyDb
    [.setPrunedHeight 7, .deleteOrphanChainTip 5] (by decide)
  have he := h.2 (.valueNotFound "orphan_chain_tips_db" "key" "") (by rfl)
  exact ⟨he.1, he.2.1⟩

/-- C7: on a non-empty batch the whole transaction is retried from scratch
after each `DbResizeRequired`, up to the fixed ceiling of 5 attempts;
exceeding the ceiling surfaces the transaction-too-large error, while any
other outcome of an attempt (success or a different error) is returned
immediately at the first attempt that is not resize-interrupted. -/
theorem write_resize_protocol (rs : Nat → Bool) (db : LMDBDatabase)
    (ops : List WriteOperation) (i0 : Nat) (hne : ops ≠ []) :
    ((∀ j, j < maxResizes → rs j = true) →
      write rs db ops =
        ⟨.error (.dbTransactionTooLarge ops.length), db, List.range' 0 maxResizes⟩) ∧
    (FirstApply rs i0 →
      (∀ db', applyOps db ops = .ok db' →
        write rs db ops = ⟨.ok (), db', List.range' 0 (i0 + 1)⟩) ∧
      (∀ e, applyOps db ops = .error e →
        write rs db ops = ⟨.error e, db, List.range' 0 (i0 + 1)⟩)) := by
  constructor
  · intro hall
    rw [write, if_neg (by simpa using hne)]
    exact writeLoop_allResize maxResizes 0 (fun j _ hj => hall j (by omega))
  · intro ⟨hi0lt, hi0f, hprev⟩
    constructor
    · intro db' hok
      rw [write, if_neg (by simpa using hne)]
      rw [writeLoop_ok hok maxResizes 0 i0 (by omega) (by
        have : maxResizes = 5 := rfl
        omega) hi0f (fun j _ hj => hprev j hj)]
      simp
    · intro e herr
      have hene : e ≠ .dbResizeRequired := by
        intro h
        rw [h] at herr
        exact applyOps_ne_resize _ _ herr
      rw [write, if_neg (by simpa using hne)]
      rw [writeLoop_error herr hene maxResizes 0 i0 (by omega) (by
        have : maxResizes = 5 := rfl
        omega) hi0f (fun j _ hj => hprev j hj)]
      simp

/-- Witness for C7: with a map that fills on every attempt a one-operation
batch surfaces `DbTransactionTooLarge(1)` after attempts 0..4; with a map
that fills on the first two attempts only, the batch commits on attempt 2
after exactly three whole-batch attempts. -/
theorem write_resize_protocol_witness :
    write (fun _ => true) emptyDb [.setPrunedHeight 7] =
      ⟨.error (.dbTransactionTooLarge 1), emptyDb, [0, 1, 2, 3, 4]⟩ ∧
    write fixResizeTwice emptyDb [.setPrunedHeight 7] =
      ⟨.ok (), { emptyDb with metadataPrunedHeight := some 7 }, [0, 1, 2]⟩ := by
  constructor
  · have h := write_resize_protocol (fun _ => true) emptyDb [.setPrunedHeight 7] 0
      (by decide)
    have := h.1 (by intro j _; rfl)
    simpa using this
  · have h := write_resize_protocol fixResizeTwice emptyDb [.setPrunedHeight 7] 2
      (by decide)
    have := (h.2 (by decide)).1 { emptyDb with metadataPrunedHeight := some 7 } (by rfl)
    simpa using this

/-- C10: writing an empty transaction returns `Ok` immediately, leaves the
whole store (every table and metadata field) unchanged, and never enters
the resize-retry loop — no attempt ever runs. -/
theorem write_empty_noop (rs : Nat → Bool) (db : LMDBDatabase) :
    write rs db [] = ⟨.ok (), db, []⟩ := by
  rw [write]
  rfl

/-!  ## Lemmas about header deletion -/

theorem tdelete_ok {K V : Type} [DecidableEq K] {t t' : Table K V} {k : K} {s : String}
    (h : tdelete t k s = .ok t') : t' = t.filter (fun p => p.1 ≠ k) := by
  rw [tdelete] at h
  split at h
  · cases h; rfl
  · cases h

theorem heightsContiguous_mem {db : LMDBDatabase} {n : Nat} (h : HeightsContiguous db n) :
    ∀ j, (∃ v, (j, v) ∈ db.headersDb) ↔ j < n := by
  intro j
  rw [← List.mem_range (m := j) (n := n), ← h.mem_iff]
  constructor
  · rintro ⟨v, hv⟩
    exact List.mem_map.mpr ⟨(j, v), hv, rfl⟩
  · intro hm
    obtain ⟨p, hp, hpj⟩ := List.mem_map.mp hm
    exact ⟨p.2, by rw [← hpj]; exact hp⟩

theorem deleteHeader_ok_spec {db db' : LMDBDatabase} {k : Nat}
    (h : deleteHeader db k = .ok db') :
    tget db.blockAccumulatedDataDb k = none ∧
    (∃ last, fetchLastHeaderInTxn db = some last ∧ last.height = k) ∧
    db'.headersDb = db.headersDb.filter (fun p => p.1 ≠ k) := by
  rw [deleteHeader] at h
  split at h
  · cases h
  · rename_i haccum
    split at h
    · cases h
    · rename_i last hlast
      split at h
      · cases h
      · rename_i hht
        split at h
        · cases h
        · split at h
          · cases h
          · split at h
            · cases h
            · rename_i t1 h1
              split at h
              · cases h
              · rename_i t2 h2
                split at h
                · cases h
                · split at h
                  · cases h
                  · split at h
                    · cases h
                    · cases h
                      refine ⟨?_, ⟨last, hlast, by omega⟩, tdelete_ok h2⟩
                      cases hacc : tget db.blockAccumulatedDataDb k
                      · rfl
                      · rw [hacc] at haccum; simp at haccum

/-- C3: `delete_header(k)` fails while `BlockAccumulatedData` exists at `k`,
fails when `k` is not the last (maximum) stored header height, fails while
kernel or UTXO rows still carry the header's hash prefix; and on success,
under the data model's contiguity invariant, the maximum stored header
height decreases by exactly one. -/
theorem delete_header_reverse_only (db db' : LMDBDatabase) (k n : Nat) :
    ((tget db.blockAccumulatedDataDb k).isSome →
      deleteHeader db k = .error (.invalidOperation (accumDataStillExistsMsg k))) ∧
    (∀ last, tget db.blockAccumulatedDataDb k = none →
      fetchLastHeaderInTxn db = some last → last.height ≠ k →
      deleteHeader db k = .error (.invalidOperation (notLastHeaderMsg k last.height))) ∧
    (∀ last, tget db.blockAccumulatedDataDb k = none →
      fetchLastHeaderInTxn db = some last → last.height = k →
      kernelsMatchingHeader db.kernelsDb last.hash ≠ [] →
      deleteHeader db k = .error (.invalidOperation (kernelsLinkedMsg last.height last.hash))) ∧
    (∀ last, tget db.blockAccumulatedDataDb k = none →
      fetchLastHeaderInTxn db = some last → last.height = k →
      kernelsMatchingHeader db.kernelsDb last.hash = [] →
      utxosMatchingHeader db.utxosDb last.hash ≠ [] →
      deleteHeader db k = .error (.invalidOperation (utxosLinkedMsg k last.hash))) ∧
    (deleteHeader db k = .ok db' → HeadersCoherent db → HeightsContiguous db n → 0 < k →
      ∃ h', fetchLastHeaderInTxn db' = some h' ∧ h'.height = k - 1) := by
  refine ⟨?_, ?_, ?_, ?_, ?_⟩
  · intro hsome
    rw [deleteHeader, if_pos hsome]
  · intro last hnone hlast hne
    rw [deleteHeader, if_neg (by rw [hnone]; simp), hlast]
    simp [hne]
  · intro last hnone hlast heq hker
    rw [deleteHeader, if_neg (by rw [hnone]; simp), hlast]
    simp [heq, hker]
  · intro last hnone hlast heq hker hutxo
    rw [deleteHeader, if_neg (by rw [hnone]; simp), hlast]
    simp [heq, hker, hutxo]
  · intro hok hcoh hctg hk
    obtain ⟨_, ⟨last, hlast, hheight⟩, hfilter⟩ := deleteHeader_ok_spec hok
    have hmem := heightsContiguous_mem hctg
    have hfl := hlast
    rw [fetchLastHeaderInTxn] at hfl
    cases hl : tlast db.headersDb with
    | none => rw [hl] at hfl; simp at hfl
    | some p =>
      rw [hl] at hfl
      simp at hfl
      have hkey : p.2.height = p.1 := hcoh p (tlast_mem hl)
      have hpk : p.1 = k := by rw [← hkey, hfl, hheight]
      have hkn : k < n := by
        rw [← (hmem k)]
        exact ⟨p.2, by rw [← hpk]; simpa using tlast_mem hl⟩
      have hkmax : k = n - 1 := by
        obtain ⟨v, hv⟩ := (hmem (n - 1)).mpr (by omega)
        have := tlast_key_max hl (n - 1, v) hv
        omega
      have hk1n : k - 1 < n := by omega
      obtain ⟨w, hw⟩ := (hmem (k - 1)).mpr hk1n
      have hwf : (k - 1, w) ∈ db'.headersDb := by
        rw [hfilter, List.mem_filter]
        exact ⟨hw, by simp; omega⟩
      have hmax' : ∀ q ∈ db'.headersDb, q.1 ≤ k - 1 := by
        intro q hq
        rw [hfilter, List.mem_filter] at hq
        obtain ⟨hq1, hq2⟩ := hq
        have hqn : q.1 < n := by
          rw [← (hmem q.1)]
          exact ⟨q.2, by simpa using hq1⟩
        simp at hq2
        omega
      obtain ⟨w', hw'⟩ := tlast_exists_max (t := db'.headersDb) (m := k - 1) ⟨w, hwf⟩ hmax'
      refine ⟨w', ?_, ?_⟩
      · rw [fetchLastHeaderInTxn, hw']
        rfl
      · have : (k - 1, w') ∈ db'.headersDb := tlast_mem hw'
        rw [hfilter, List.mem_filter] at this
        exact hcoh _ this.1

/-- Witness for C3 at the concrete two-header chain: deleting height 0 (not
the last header) fails with the reverse-order error, and deleting height 1
succeeds leaving height 0 as the maximum. -/
theorem delete_header_reverse_only_witness :
    deleteHeader fixDbChain 0 = .error (.invalidOperation (notLastHeaderMsg 0 1)) ∧
    (∃ db', deleteHeader fixDbChain 1 = .ok db' ∧
      ∃ h', fetchLastHeaderInTxn db' = some h' ∧ h'.height = 0) := by
  constructor
  · have h := delete_header_reverse_only fixDbChain fixDbChain 0 2
    exact h.2.1 fixHeader1 (by decide) (by decide) (by decide)
  · have hok : deleteHeader fixDbChain 1 = .ok fixDbChainDel := by decide
    have h := delete_header_reverse_only fixDbChain fixDbChainDel 1 2
    exact ⟨fixDbChainDel, hok, h.2.2.2.2 hok (by decide) (by decide) (by decide)⟩

/-!  ## The SetBestBlock optimistic guard -/

theorem write_single_error {db : LMDBDatabase} {op : WriteOperation} {e : ChainStorageError}
    (h : applyOp db op = .error e) :
    (write noResize db [op]).result = .error e ∧ (write noResize db [op]).state = db := by
  have hops : applyOps db [op] = .error e := by
    rw [applyOps, h]
  have hene : e ≠ .dbResizeRequired := by
    intro hc
    rw [hc] at h
    exact applyOp_ne_resize _ _ h
  rw [write]
  simp only [List.isEmpty_cons, if_false]
  rw [writeLoop_error hops hene maxResizes 0 0 (le_refl _) (by
    have : maxResizes = 5 := rfl
    omega) rfl (fun j h1 h2 => by omega)]
  exact ⟨rfl, rfl⟩

theorem fetchBestBlock_of_some {db : LMDBDatabase} {prev : Hash}
    (h : db.metadataBestBlock = some prev) : fetchBestBlock db = .ok prev := by
  rw [fetchBestBlock, h]

/-- C4: `SetBestBlock` fails with the invalid-operation error naming both
hashes when `height > 0` and the stored best block differs from
`expected_prev_best_block`; fails when `hash` is not a known header; on
either failure the observable state (hence all four metadata fields) is
unchanged; when both checks pass, exactly the four metadata fields are
overwritten. -/
theorem set_best_block_guard (db : LMDBDatabase) (height : Nat) (hash : Hash) (ad : Nat)
    (exp : Hash) (ts : Nat) :
    (∀ prev, 0 < height → db.metadataBestBlock = some prev → exp ≠ prev →
      applyOp db (.setBestBlock height hash ad exp ts) =
        .error (.invalidOperation (bestBlockChangedMsg exp prev)) ∧
      (write noResize db [.setBestBlock height hash ad exp ts]).state = db) ∧
    ((height = 0 ∨ db.metadataBestBlock = some exp) → tget db.blockHashesDb hash = none →
      applyOp db (.setBestBlock height hash ad exp ts) =
        .error (.invalidOperation (noBlockHeaderHashMsg exp)) ∧
      (write noResize db [.setBestBlock height hash ad exp ts]).state = db) ∧
    ((height = 0 ∨ db.metadataBestBlock = some exp) → (tget db.blockHashesDb hash).isSome →
      applyOp db (.setBestBlock height hash ad exp ts) =
        .ok { db with
          metadataChainHeight := some height
          metadataBestBlock := some hash
          metadataAccumulatedWork := some ad
          metadataBestBlockTimestamp := some ts }) := by
  have happ : applyOp db (.setBestBlock height hash ad exp ts) =
      applySetBestBlock db height hash ad exp ts := rfl
  refine ⟨?_, ?_, ?_⟩
  · intro prev hgt hprev hne
    have herr : applyOp db (.setBestBlock height hash ad exp ts) =
        .error (.invalidOperation (bestBlockChangedMsg exp prev)) := by
      rw [happ, applySetBestBlock, if_pos hgt]
      simp only [fetchBestBlock_of_some hprev]
      rw [if_pos hne]
    exact ⟨herr, (write_single_error herr).2⟩
  · intro hguard hnone
    have hnotex : ¬ texists db.blockHashesDb hash := by
      simp [texists, hnone]
    have herr : applyOp db (.setBestBlock height hash ad exp ts) =
        .error (.invalidOperation (noBlockHeaderHashMsg exp)) := by
      rcases hguard with hz | hsome
      · rw [happ, applySetBestBlock, if_neg (by omega)]
        rw [applySetBestBlockWrite, if_pos hnotex]
      · rw [happ, applySetBestBlock]
        by_cases hgt : height > 0
        · rw [if_pos hgt]
          simp only [fetchBestBlock_of_some hsome]
          rw [if_neg (by simp)]
          rw [applySetBestBlockWrite, if_pos hnotex]
        · rw [if_neg hgt]
          rw [applySetBestBlockWrite, if_pos hnotex]
    exact ⟨herr, (write_single_error herr).2⟩
  · intro hguard hsome
    have hex : texists db.blockHashesDb hash := by
      simp [texists, hsome]
    rcases hguard with hz | hprev
    · rw [happ, applySetBestBlock, if_neg (by omega)]
      rw [applySetBestBlockWrite, if_neg (by simpa using hex)]
    · rw [happ, applySetBestBlock]
      by_cases hgt : height > 0
      · rw [if_pos hgt]
        simp only [fetchBestBlock_of_some hprev]
        rw [if_neg (by simp)]
        rw [applySetBestBlockWrite, if_neg (by simpa using hex)]
      · rw [if_neg hgt]
        rw [applySetBestBlockWrite, if_neg (by simpa using hex)]

/-- Witness for C4: on a store whose best block is hash 100, `SetBestBlock`
expecting previous best 99 fails naming both hashes and leaves the state
unchanged; expecting 100 succeeds and overwrites the four metadata
fields. -/
theorem set_best_block_guard_witness :
    applyOp fixDbBest (.setBestBlock 1 100 5 99 7) =
      .error (.invalidOperation (bestBlockChangedMsg 99 100)) ∧
    (write noResize fixDbBest [.setBestBlock 1 100 5 99 7]).state = fixDbBest ∧
    applyOp fixDbBest (.setBestBlock 1 100 5 100 7) =
      .ok { fixDbBest with
        metadataChainHeight := some 1
        metadataBestBlock := some 100
        metadataAccumulatedWork := some 5
        metadataBestBlockTimestamp := some 7 } := by
  have h1 := (set_best_block_guard fixDbBest 1 100 5 99 7).1 100 (by decide) (by decide)
    (by decide)
  have h2 := (set_best_block_guard fixDbBest 1 100 5 100 7).2.2 (.inr (by decide)) (by decide)
  exact ⟨h1.1, h1.2, h2⟩

/-!  ## Output pruning is one-way -/

theorem tget_treplace_self {K V : Type} [DecidableEq K] (t : Table K V) (k : K) (v : V) :
    tget (treplace t k v) k = some v := by
  rw [treplace, tget]
  simp

/-- C5: pruning the output at MMR position `p` (whose row exists with a
live payload) clears exactly the payload, keeping the output hash, witness
hash, mined height and mined timestamp; pruning the same position again
fails with the already-pruned data-inconsistency error rather than being a
no-op. -/
theorem prune_output_one_way (db : LMDBDatabase) (p sz ht : Nat) (hsh : Hash)
    (row : TransactionOutputRowData) (payload : Nat)
    (hidx : tfirstAfter db.outputMmrSizeIndex ((p + 1) % u32Mod) = some (sz, (ht, hsh)))
    (hrow : tget db.utxosDb (OutputKey.mk hsh p) = some row)
    (hpay : row.output = some payload) :
    ∃ db', pruneOutputsAtPositions db [p] = .ok db' ∧
      tget db'.utxosDb (OutputKey.mk hsh p) =
        some ⟨none, row.hash, row.witnessHash, row.minedHeight, row.minedTimestamp⟩ ∧
      pruneOutputsAtPositions db' [p] =
        .error (.dataInconsistencyDetected "prune_output"
          (alreadyPrunedDetails hsh p)) := by
  have hprune : pruneOutput db (OutputKey.mk hsh p) = .ok { db with utxosDb := treplace db.utxosDb (OutputKey.mk hsh p) { row with output := none } } := by
    rw [pruneOutput]
    simp only [hrow, hpay]
  refine ⟨{ db with utxosDb := treplace db.utxosDb (OutputKey.mk hsh p) { row with output := none } }, ?_, ?_, ?_⟩
  · rw [pruneOutputsAtPositions]
    simp only [hidx, hprune]
    rw [pruneOutputsAtPositions]
  · exact tget_treplace_self _ _ _
  · rw [pruneOutputsAtPositions]
    simp only [hidx]
    rw [pruneOutput]
    simp only [tget_treplace_self]

/-!  ## The deleted-bitmap model: merge idempotence, remove/merge restore -/

/-- Counterexample for C6: on a store with an empty persisted bitmap,
`remove {0}` followed by `merge {0}` and `save` does not restore the
original saved state — the saved bitmap gains position 0. -/
theorem deleted_bitmap_restore_counterexample :
    fetchDeletedBitmap
        ((((DeletedBitmapModel.load emptyDb).remove {0}).merge {0}).save emptyDb) ≠
      fetchDeletedBitmap emptyDb := by
  decide

/-- C6 (amended): merging the same bitmap twice into the model saves the
same state as merging it once; and `remove S` followed by `merge S` and
`save` restores the original saved bitmap provided every position of `S`
was already in it. -/
theorem deleted_bitmap_merge_idempotent (db : LMDBDatabase) (s : Finset Nat) :
    fetchDeletedBitmap ((((DeletedBitmapModel.load db).merge s).merge s).save db) =
      fetchDeletedBitmap (((DeletedBitmapModel.load db).merge s).save db) ∧
    (s ⊆ fetchDeletedBitmap db →
      fetchDeletedBitmap ((((DeletedBitmapModel.load db).remove s).merge s).save db) =
        fetchDeletedBitmap db) := by
  constructor
  · simp [DeletedBitmapModel.load, DeletedBitmapModel.merge, DeletedBitmapModel.save,
      fetchDeletedBitmap, Finset.union_assoc]
  · intro hsub
    simp [DeletedBitmapModel.load, DeletedBitmapModel.remove, DeletedBitmapModel.merge,
      DeletedBitmapModel.save, fetchDeletedBitmap]
    exact hsub

/-- Witness for C6 (amended) on the concrete bitmap {0, 1} with S = {0}:
double merge saves the same state as a single merge, and remove-then-merge
restores the original bitmap. -/
theorem deleted_bitmap_merge_idempotent_witness :
    fetchDeletedBitmap
        ((((DeletedBitmapModel.load fixDbBitmap).merge {0}).merge {0}).save fixDbBitmap) =
      fetchDeletedBitmap (((DeletedBitmapModel.load fixDbBitmap).merge {0}).save fixDbBitmap) ∧
    fetchDeletedBitmap
        ((((DeletedBitmapModel.load fixDbBitmap).remove {0}).merge {0}).save fixDbBitmap) =
      fetchDeletedBitmap fixDbBitmap := by
  have h := deleted_bitmap_merge_idempotent fixDbBitmap {0}
  exact ⟨h.1, h.2 (by decide)⟩

/-!  ## Orphan eviction -/

theorem mem_insertByHeight {x a : Nat × Hash} {l : List (Nat × Hash)} :
    a ∈ insertByHeight x l ↔ a = x ∨ a ∈ l := by
  induction l with
  | nil => simp [insertByHeight]
  | cons y ys ih =>
    rw [insertByHeight]
    split
    · rw [List.mem_cons, ih, List.mem_cons]
      tauto
    · rw [List.mem_cons]

theorem pairwise_insertByHeight {x : Nat × Hash} {l : List (Nat × Hash)}
    (h : List.Pairwise (fun a b => a.1 ≤ b.1) l) :
    List.Pairwise (fun a b => a.1 ≤ b.1) (insertByHeight x l) := by
  induction l with
  | nil => simp [insertByHeight]
  | cons y ys ih =>
    rw [insertByHeight]
    rw [List.pairwise_cons] at h
    split
    · rename_i hlt
      rw [List.pairwise_cons]
      constructor
      · intro a ha
        rcases mem_insertByHeight.mp ha with rfl | ha'
        · omega
        · exact h.1 a ha'
      · exact ih h.2
    · rename_i hge
      rw [List.pairwise_cons]
      constructor
      · intro a ha
        rcases List.mem_cons.mp ha with rfl | ha'
        · omega
        · have := h.1 a ha'
          omega
      · exact List.pairwise_cons.mpr h

theorem pairwise_sortByHeight (l : List (Nat × Hash)) :
    List.Pairwise (fun a b => a.1 ≤ b.1) (sortByHeight l) := by
  induction l with
  | nil => simp [sortByHeight]
  | cons x xs ih =>
    rw [sortByHeight]
    exact pairwise_insertByHeight ih

theorem evictLoop_eq_take (horizonHeight numOverLimit : Nat) :
    ∀ (l : List (Nat × Hash)) (cnt : Nat), ∃ m,
      evictLoop horizonHeight numOverLimit l cnt = l.take m := by
  intro l
  induction l with
  | nil => intro cnt; exact ⟨0, rfl⟩
  | cons x rest ih =>
    intro cnt
    obtain ⟨ht, hsh⟩ := x
    rw [evictLoop]
    split
    · exact ⟨0, rfl⟩
    · obtain ⟨m, hm⟩ := ih (cnt + 1)
      exact ⟨m + 1, by rw [hm, List.take_succ_cons]⟩

theorem evictLoop_beyond_count_le_horizon (horizonHeight numOverLimit : Nat) :
    ∀ (l : List (Nat × Hash)) (cnt k : Nat),
      k < (evictLoop horizonHeight numOverLimit l cnt).length →
      numOverLimit ≤ cnt + k →
      ((evictLoop horizonHeight numOverLimit l cnt).getD k (0, 0)).1 ≤ horizonHeight := by
  intro l
  induction l with
  | nil =>
    intro cnt k hk
    rw [evictLoop] at hk
    simp at hk
  | cons x rest ih =>
    intro cnt k hk hcnt
    obtain ⟨ht, hsh⟩ := x
    rw [evictLoop] at hk ⊢
    split at hk
    · simp at hk
    · rename_i hstop
      rw [if_neg hstop]
      cases k with
      | zero =>
        rw [List.getD_cons_zero]
        by_cases hh : ht > horizonHeight
        · exact absurd ⟨hh, by omega⟩ hstop
        · omega
      | succ k' =>
        rw [List.getD_cons_succ]
        exact ih (cnt + 1) k' (by simpa using hk) (by omega)

/-- Counterexample for C8: with two stored orphans both at height equal to
`horizon_height = 5` and capacity 1, the required eviction count is 1, yet
both orphans — each at a height at-or-above the horizon — are evicted (the
final state stores none). -/
theorem delete_oldest_orphans_counterexample :
    (evictedOrphans fixDbOrphans 5 1).length = 2 ∧
    fixDbOrphans.orphansDb.length - 1 = 1 ∧
    (∀ p ∈ evictedOrphans fixDbOrphans 5 1, 5 ≤ p.1) ∧
    (deleteOldestOrphans fixDbOrphans 5 1).state.orphansDb = [] := by
  decide

/-- C8 (amended): `delete_oldest_orphans` evicts nothing when the stored
orphan count does not exceed the capacity; otherwise it evicts orphans in
ascending height order (a prefix of the height-sorted orphan list), and it
never evicts an orphan whose height is strictly above `horizon_height`
beyond the required eviction count (stored count minus capacity). -/
theorem delete_oldest_orphans_spec (db : LMDBDatabase) (horizonHeight cap : Nat) :
    (db.orphansDb.length ≤ cap → deleteOldestOrphans db horizonHeight cap = ⟨.ok (), db, []⟩) ∧
    (∃ t, sortByHeight (db.orphansDb.map (fun p => (p.2.header.height, p.2.hash))) =
      evictedOrphans db horizonHeight cap ++ t) ∧
    List.Pairwise (fun a b => a.1 ≤ b.1) (evictedOrphans db horizonHeight cap) ∧
    (∀ k, k < (evictedOrphans db horizonHeight cap).length →
      db.orphansDb.length - cap ≤ k →
      ((evictedOrphans db horizonHeight cap).getD k (0, 0)).1 ≤ horizonHeight) := by
  refine ⟨?_, ?_, ?_, ?_⟩
  · intro hle
    rw [deleteOldestOrphans, if_pos (by omega)]
  · by_cases hz : db.orphansDb.length - cap = 0
    · rw [evictedOrphans, if_pos hz]
      exact ⟨_, rfl⟩
    · rw [evictedOrphans, if_neg hz]
      obtain ⟨m, hm⟩ := evictLoop_eq_take horizonHeight (db.orphansDb.length - cap)
        (sortByHeight (db.orphansDb.map (fun p => (p.2.header.height, p.2.hash)))) 0
      rw [hm]
      exact ⟨_, (List.take_append_drop m _).symm⟩
  · by_cases hz : db.orphansDb.length - cap = 0
    · rw [evictedOrphans, if_pos hz]
      exact List.Pairwise.nil
    · rw [evictedOrphans, if_neg hz]
      obtain ⟨m, hm⟩ := evictLoop_eq_take horizonHeight (db.orphansDb.length - cap)
        (sortByHeight (db.orphansDb.map (fun p => (p.2.header.height, p.2.hash)))) 0
      rw [hm]
      exact (pairwise_sortByHeight _).sublist (List.take_sublist _ _)
  · intro k hk hcnt
    rw [evictedOrphans] at hk ⊢
    by_cases hz : db.orphansDb.length - cap = 0
    · rw [if_pos hz] at hk
      simp at hk
    · rw [if_neg hz] at hk ⊢
      exact evictLoop_beyond_count_le_horizon horizonHeight (db.orphansDb.length - cap) _ 0 k
        hk (by omega)

/-- Witness for C8 (amended): with capacity 2 nothing is evicted from the
two-orphan store; with horizon 5 and capacity 1, the eviction beyond the
required count (index 1) is at a height not strictly above the horizon. -/
theorem delete_oldest_orphans_spec_witness :
    deleteOldestOrphans fixDbOrphans 5 2 = ⟨.ok (), fixDbOrphans, []⟩ ∧
    1 < (evictedOrphans fixDbOrphans 5 1).length ∧
    ((evictedOrphans fixDbOrphans 5 1).getD 1 (0, 0)).1 ≤ 5 := by
  refine ⟨?_, by decide, ?_⟩
  · exact (delete_oldest_orphans_spec fixDbOrphans 5 2).1 (by decide)
  · exact (delete_oldest_orphans_spec fixDbOrphans 5 1).2.2.2 1 (by decide) (by decide)

/-!  ## Inbound new-block reconciliation -/

/-- C9: an announcement with an empty excess-signature set is reconstructed
from only the header and coinbase pair and returned for application, with
no mempool query and no missing-transaction or full-block request — the
effect trace is empty. -/
theorem reconcile_block_empty_sigs (env : ReconcileEnv) (nb : NewBlock)
    (h : nb.kernelExcessSigs = []) :
    reconcileBlock env nb =
      (.ok (buildBlock nb.header nb.coinbaseOutput nb.coinbaseKernel []), []) := by
  rw [reconcileBlock, if_pos (by rw [h]; rfl)]

/-- Witness for C9 at a concrete empty-signature announcement. -/
theorem reconcile_block_empty_sigs_witness :
    reconcileBlock fixEnv ⟨fixHeader0, 7, 8, []⟩ =
      (.ok (buildBlock fixHeader0 7 8 []), []) := by
  exact reconcile_block_empty_sigs fixEnv ⟨fixHeader0, 7, 8, []⟩ rfl

/-- Witness for C5: pruning position 2 of the concrete store clears the
payload while keeping hashes and timestamps, and pruning it twice fails. -/
theorem prune_output_one_way_witness :
    ∃ db', pruneOutputsAtPositions fixDbUtxo [2] = .ok db' ∧
      tget db'.utxosDb (OutputKey.mk 300 2) =
        some ⟨none, 500, 501, 0, 12⟩ ∧
      pruneOutputsAtPositions db' [2] =
        .error (.dataInconsistencyDetected "prune_output"
          (alreadyPrunedDetails 300 2)) := by
  exact prune_output_one_way fixDbUtxo 2 4 0 300 fixOutputRow 77 (by decide) (by decide)
    (by decide)

end Tari
